import Mathlib

/-!
Verification development for the hako-crawler repository.

The repository is a TypeScript light-novel crawler.  This file gives a
shallow embedding, in Lean, of the parts of the code that the verified
properties speak about:

* `src/utils/text.ts` (`formatFilename`),
* `src/utils/proxy.ts` (`isValidProxyUrl`, `parseProxyUrl`,
  `sanitizeForDisplay`, `buildProxyUrl`) together with a model of the
  WHATWG `URL` platform class those functions are built on,
* `src/services/proxy-pool.ts` (`ProxyPool.getProxyAt`,
  `ProxyPool.getAlternativeProxy`),
* `src/services/network.ts` (`fetchWithRetry`, `downloadToFile`),
* `src/services/content-processor.ts` (`convertFootnoteMarkers`,
  `generateFootnoteAsides`, `processFootnotes`),
* `src/services/downloader.ts` (`validateCachedChapter`, `fileExistsSync`).

Machine strings are Lean `String`s (lists of characters); JavaScript
numbers that the code uses as small non-negative integers are `Nat`
(one place where the code relies on a transient `-1`, the 429 branch of
the retry loop, is modelled by its net effect and documented there).
Effectful code (the network fabric, the file system) is modelled by
explicit state passing over oracle lists and finite file-system maps.
-/

set_option maxRecDepth 4000

namespace HakoCrawler

/-! ### Character and string primitives -/

/-- Decimal digit test on a character, used by the URL-port and note-id
scanners (`/\d/` character class in the source regexes). -/
def isDigitChar (c : Char) : Bool :=
  48 ≤ c.toNat && c.toNat ≤ 57

/-- Whitespace as trimmed by JavaScript `String.prototype.trim`, restricted
to the ASCII whitespace characters (space, tab, LF, VT, FF, CR).  Unicode
space characters are outside the model. -/
def isWsChar (c : Char) : Bool :=
  c.toNat = 32 || c.toNat = 9 || c.toNat = 10 || c.toNat = 11 ||
  c.toNat = 12 || c.toNat = 13

/-- Characters removed by `formatFilename` in `src/utils/text.ts`:
the regex character class `[\\/*?:"<>|]` (code points
92, 47, 42, 63, 58, 34, 60, 62, 124). -/
def isInvalidFilenameChar (c : Char) : Bool :=
  c.toNat = 92 || c.toNat = 47 || c.toNat = 42 || c.toNat = 63 ||
  c.toNat = 58 || c.toNat = 34 || c.toNat = 60 || c.toNat = 62 ||
  c.toNat = 124

/-- ASCII alphanumeric test (0-9, A-Z, a-z). -/
def isAsciiAlphanum (c : Char) : Bool :=
  (48 ≤ c.toNat && c.toNat ≤ 57) ||
  (65 ≤ c.toNat && c.toNat ≤ 90) ||
  (97 ≤ c.toNat && c.toNat ≤ 122)

/-- Boolean list-prefix test. -/
def isPrefixList : List Char → List Char → Bool
  | [], _ => true
  | _ :: _, [] => false
  | a :: as, b :: bs => a == b && isPrefixList as bs

/-- Drop leading and trailing whitespace from a character list: the model
of JavaScript `trim()`. -/
def trimCharList (l : List Char) : List Char :=
  (((l.dropWhile isWsChar).reverse.dropWhile isWsChar)).reverse

/-- Model of JavaScript `trim()` on strings. -/
def trimStr (s : String) : String :=
  String.mk (trimCharList s.data)

/-! ### `formatFilename` (src/utils/text.ts lines 16-25)

The source reads:
```
let formatted = name.replace(/[\\/*?:"<>|]/g, '');
formatted = formatted.replace(/ /g, '_');
formatted = formatted.trim();
return formatted.slice(0, 100);
```
A global single-character-class removal is a character filter, the global
space replacement is a character map, and `slice(0, 100)` is `take 100`. -/

/-- The character list obtained after the remove / replace / trim steps of
`formatFilename`, before the final `slice(0, 100)`. -/
def formatFilenamePreTruncate (name : String) : List Char :=
  trimCharList ((name.data.filter (fun c => !isInvalidFilenameChar c)).map
    (fun c => if c = ' ' then '_' else c))

/-- Embedding of `formatFilename` from `src/utils/text.ts`. -/
def formatFilename (name : String) : String :=
  String.mk ((formatFilenamePreTruncate name).take 100)

/-- Concrete input exhibiting the failure of idempotence of
`formatFilename`: 99 letters, a tab, and one letter.  Truncation to 100
characters exposes the tab as a trailing character, which a second
application trims away. -/
def c7BadInput : String :=
  String.mk (List.replicate 99 'a' ++ ['\t', 'b'])

/-! ### Proxy descriptors and the proxy pool
(src/types, src/services/proxy-pool.ts)

A `ProxyConfig` is the parsed proxy descriptor: protocol, host, port, and
optional credentials (`none` models an absent field of the TypeScript
object). -/

structure ProxyConfig where
  protocol : String
  host : String
  port : Nat
  username : Option String := none
  password : Option String := none
deriving DecidableEq, Repr

/-- State of a `ProxyPool`: the immutable descriptor sequence.  The
rotation cursor plays no role in the two operations verified here. -/
structure ProxyPoolRec where
  proxies : List ProxyConfig
deriving DecidableEq, Repr

/-- Embedding of `ProxyPool.getProxyAt` (src/services/proxy-pool.ts):
`this.proxies[index]`, with JavaScript `undefined` modelled as `none`. -/
def getProxyAt (pool : ProxyPoolRec) (index : Nat) : Option ProxyConfig :=
  pool.proxies[index]?

/-- Embedding of `ProxyPool.getAlternativeProxy`
(src/services/proxy-pool.ts lines 130-142). -/
def getAlternativeProxy (pool : ProxyPoolRec) (excludeIndex : Nat) :
    Option ProxyConfig :=
  if pool.proxies.length ≤ 1 then none
  else
    let nextIndex := (excludeIndex + 1) % pool.proxies.length
    if nextIndex = excludeIndex then none
    else pool.proxies[nextIndex]?

/-- A pool holding the same descriptor twice: the parser happily parses
duplicate URLs, so such a pool is constructible. -/
def c9DupPool : ProxyPoolRec :=
  ⟨[⟨"http", "proxy1.example.com", 8080, none, none⟩,
    ⟨"http", "proxy1.example.com", 8080, none, none⟩]⟩

/-- A two-element pool with distinct descriptors. -/
def c9DistinctPool : ProxyPoolRec :=
  ⟨[⟨"http", "p1.example.com", 8080, none, none⟩,
    ⟨"socks5", "p2.example.com", 1080, none, none⟩]⟩

/-- A single-element pool. -/
def c9SinglePool : ProxyPoolRec :=
  ⟨[⟨"http", "p1.example.com", 8080, none, none⟩]⟩

/-! ### WHATWG URL model (the `new URL(...)` platform class)

`src/utils/proxy.ts` is built on the WHATWG `URL` parser.  The model below
covers the authority form `scheme://[userinfo@]host[:port][/?#…]`, which
is the form every proxy URL takes, with these documented restrictions:

* URLs without `//` after the scheme are outside the model (`none`);
* hostname tokens are over a normalised alphabet (lowercase letters,
  digits, `.`, `-`, `_`); IDNA/case normalisation and IPv6 brackets are
  outside the model;
* userinfo characters are restricted to the characters that the parser
  stores verbatim (the `encodeURIComponent` output alphabet: unreserved
  characters and `%`); authorities with more than one `@` are outside
  the model;
* as in WHATWG, an explicit port must be digits and at most 65535 (else
  parse failure), and a port equal to the scheme's default (80/443 for
  http/https; none for non-special schemes such as socks5) is elided;
* the serializer prints `scheme://[userinfo@]host[:port]` followed by the
  path-and-after, inserting the `/` that WHATWG gives special-scheme URLs
  with an empty path. -/

/-- ASCII lowercase conversion. -/
def toLowerChar (c : Char) : Char :=
  if 65 ≤ c.toNat ∧ c.toNat ≤ 90 then Char.ofNat (c.toNat + 32) else c

/-- First character of a scheme: an ASCII letter. -/
def isSchemeStartChar (c : Char) : Bool :=
  (65 ≤ c.toNat && c.toNat ≤ 90) || (97 ≤ c.toNat && c.toNat ≤ 122)

/-- Subsequent scheme characters: letters, digits, `+`, `-`, `.`. -/
def isSchemeChar (c : Char) : Bool :=
  isSchemeStartChar c || isDigitChar c || c.toNat = 43 || c.toNat = 45 ||
  c.toNat = 46

/-- A well-formed scheme token. -/
def validSchemeChars : List Char → Bool
  | [] => false
  | c :: rest => isSchemeStartChar c && rest.all isSchemeChar

/-- Hostname characters of the model: lowercase letters, digits, `.`,
`-`, `_`. -/
def isHostChar (c : Char) : Bool :=
  (97 ≤ c.toNat && c.toNat ≤ 122) || isDigitChar c || c.toNat = 46 ||
  c.toNat = 45 || c.toNat = 95

/-- The characters `encodeURIComponent` leaves unencoded: ASCII
alphanumerics and `- _ . ! ~ * ' ( )`. -/
def isUnreservedURI (c : Char) : Bool :=
  isAsciiAlphanum c || c.toNat = 45 || c.toNat = 95 || c.toNat = 46 ||
  c.toNat = 33 || c.toNat = 126 || c.toNat = 42 || c.toNat = 39 ||
  c.toNat = 40 || c.toNat = 41

/-- Userinfo characters the model's parser stores verbatim. -/
def isUserinfoChar (c : Char) : Bool :=
  isUnreservedURI c || c.toNat = 37

/-- Uppercase hexadecimal digit for a value below 16. -/
def hexDigitChar (n : Nat) : Char :=
  if n < 10 then Char.ofNat (48 + n) else Char.ofNat (55 + n)

/-- Value of a hexadecimal digit character. -/
def hexVal (c : Char) : Option Nat :=
  if 48 ≤ c.toNat ∧ c.toNat ≤ 57 then some (c.toNat - 48)
  else if 65 ≤ c.toNat ∧ c.toNat ≤ 70 then some (c.toNat - 55)
  else if 97 ≤ c.toNat ∧ c.toNat ≤ 102 then some (c.toNat - 87)
  else none

/-- Per-character `encodeURIComponent` (ASCII model: multi-byte UTF-8
percent-encoding of non-ASCII characters is outside the model). -/
def encodeChar (c : Char) : List Char :=
  if isUnreservedURI c then [c]
  else [Char.ofNat 37, hexDigitChar (c.toNat / 16 % 16),
    hexDigitChar (c.toNat % 16)]

/-- Model of `encodeURIComponent`. -/
def encodeURIComponent (s : String) : String :=
  String.mk (s.data.map encodeChar).flatten

/-- Percent-decoding sweep.  An invalid escape is kept verbatim in the
model (the platform function raises there; that case cannot arise on
encoder output). -/
def decodePercent : List Char → List Char
  | [] => []
  | c :: rest =>
    if c.toNat = 37 then
      match rest with
      | h1 :: h2 :: rest2 =>
        match hexVal h1, hexVal h2 with
        | some a, some b => Char.ofNat (16 * a + b) :: decodePercent rest2
        | _, _ => c :: decodePercent (h1 :: h2 :: rest2)
      | [] => [c]
      | [h1] => c :: decodePercent [h1]
    else c :: decodePercent rest
termination_by l => l.length
decreasing_by
  all_goals simp only [List.length_cons, List.length_nil]
  all_goals omega

/-- Model of `decodeURIComponent`. -/
def decodeURIComponent (s : String) : String :=
  String.mk (decodePercent s.data)

/-- Decimal digit list of a natural number, with a structural fuel bound
(the fuel branch is never reached when the fuel is at least the number). -/
def natDigitsAux : Nat → Nat → List Char
  | 0, n => [Char.ofNat (48 + n % 10)]
  | fuel + 1, n =>
    if n < 10 then [Char.ofNat (48 + n)]
    else natDigitsAux fuel (n / 10) ++ [Char.ofNat (48 + n % 10)]

/-- Decimal digit list of a natural number. -/
def natDigits (n : Nat) : List Char :=
  natDigitsAux n n

/-- Decimal rendering of a natural number (the template-literal
interpolation `${n}` of the source). -/
def natToString (n : Nat) : String :=
  String.mk (natDigits n)

/-- Value of a decimal digit list (also the model of `Number(s)` on an
all-digit string; note `Number("") = 0`). -/
def digitsVal (l : List Char) : Nat :=
  l.foldl (fun a c => a * 10 + (c.toNat - 48)) 0

/-- Split at the first occurrence of a character. -/
def splitFirstChar (sep : Char) : List Char → Option (List Char × List Char)
  | [] => none
  | c :: rest =>
    if c = sep then some ([], rest)
    else
      match splitFirstChar sep rest with
      | none => none
      | some (a, b) => some (c :: a, b)

/-- Split at the last occurrence of a character. -/
def splitLastChar (sep : Char) (l : List Char) :
    Option (List Char × List Char) :=
  match splitFirstChar sep l.reverse with
  | none => none
  | some (a, b) => some (b.reverse, a.reverse)

/-- The authority runs to the first `/`, `?` or `#`. -/
def takeUntilStops (stops : List Char) (l : List Char) :
    List Char × List Char :=
  (l.takeWhile (fun c => !stops.contains c),
    l.dropWhile (fun c => !stops.contains c))

/-- A parsed URL record: the components of the WHATWG `URL` object the
proxy utilities read (`protocol`, `username`, `password`, `hostname`,
`port` — `none` when omitted or equal to the scheme default — and the
serialized path-and-after). -/
structure URLRec where
  scheme : String
  username : String
  password : String
  host : String
  port : Option Nat
  path : String
deriving DecidableEq, Repr

/-- The WHATWG special schemes. -/
def specialSchemes : List String :=
  ["http", "https", "ws", "wss", "ftp", "file"]

/-- Default ports of the special schemes (non-special schemes have
none). -/
def defaultSchemePort (scheme : String) : Option Nat :=
  if scheme = "http" then some 80
  else if scheme = "https" then some 443
  else if scheme = "ws" then some 80
  else if scheme = "wss" then some 443
  else if scheme = "ftp" then some 21
  else none

/-- Port parsing: absent or empty means no port; digits only, at most
65535, with the scheme default elided. -/
def parsePort (portPart : Option (List Char)) (scheme : String) :
    Option (Option Nat) :=
  match portPart with
  | none => some none
  | some ds =>
    if ds = [] then some none
    else if ds.all isDigitChar then
      if digitsVal ds > 65535 then none
      else if defaultSchemePort scheme = some (digitsVal ds) then some none
      else some (some (digitsVal ds))
    else none

/-- The username/password split of the userinfo: at the first `:`. -/
def userinfoSplit (userinfo : List Char) : List Char × List Char :=
  match splitFirstChar ':' userinfo with
  | some (u, p) => (u, p)
  | none => (userinfo, [])

/-- Userinfo parsing: reject a second `@` (outside the model), split the
username from the password at the first `:`, and require the verbatim
userinfo alphabet on both. -/
def parseUserinfo (userinfo : List Char) :
    Option (List Char × List Char) :=
  if userinfo.contains '@' then none
  else if (userinfoSplit userinfo).1.all isUserinfoChar &&
      (userinfoSplit userinfo).2.all isUserinfoChar then
    some (userinfoSplit userinfo)
  else none

/-- The host/port split of the authority remainder: at the first `:`. -/
def hostPortSplit (hostport : List Char) : List Char × Option (List Char) :=
  match splitFirstChar ':' hostport with
  | some (h, p) => (h, some p)
  | none => (hostport, none)

/-- Host and port parsing: split at the first `:`, validate the host
alphabet, reject an empty host for special schemes, and parse the port. -/
def parseHostPort (scheme : String) (hostport : List Char) :
    Option (String × Option Nat) :=
  if (hostPortSplit hostport).1.all isHostChar then
    if (hostPortSplit hostport).1 = [] ∧ specialSchemes.contains scheme then
      none
    else
      match parsePort (hostPortSplit hostport).2 scheme with
      | none => none
      | some port => some (String.mk (hostPortSplit hostport).1, port)
  else none

/-- The credentials/hostport split of the authority: at the last `@`. -/
def authoritySplit (auth : List Char) : Option (List Char) × List Char :=
  match splitLastChar '@' auth with
  | some (u, hp) => (some u, hp)
  | none => (none, auth)

/-- Authority parsing: the authority runs to the first `/`, `?` or `#`;
credentials sit before the last `@`. -/
def parseAuthority (scheme : String) (afterSlashes : List Char) :
    Option URLRec :=
  match parseUserinfo
      ((authoritySplit
        (takeUntilStops ['/', '?', '#'] afterSlashes).1).1.getD []) with
  | none => none
  | some up =>
    match parseHostPort scheme
        (authoritySplit (takeUntilStops ['/', '?', '#'] afterSlashes).1).2 with
    | none => none
    | some hp =>
      some ⟨scheme, String.mk up.1, String.mk up.2, hp.1, hp.2,
        String.mk (takeUntilStops ['/', '?', '#'] afterSlashes).2⟩

/-- Model of `new URL(s)`, restricted as documented above: scheme up to
the first `:`, lowercased; then `//` and an authority. -/
def parseURL (s : String) : Option URLRec :=
  match splitFirstChar ':' s.data with
  | none => none
  | some (schemeRaw, rest) =>
    if validSchemeChars schemeRaw then
      match rest with
      | '/' :: '/' :: afterSlashes =>
        parseAuthority (String.mk (schemeRaw.map toLowerChar)) afterSlashes
      | _ => none
    else none

/-- The port component of the serialization (`:p`, or empty when the
record holds no port). -/
def serializePort : Option Nat → String
  | some p => ":" ++ natToString p
  | none => ""

/-- The path-and-after of the serialization: WHATWG gives special-scheme
URLs an explicit `/` when the path is empty. -/
def serializePath (scheme : String) (path : String) : String :=
  if specialSchemes.contains scheme && !isPrefixList ['/'] path.data then
    "/" ++ path
  else path

/-- The `URL#toString` serializer over the model's records. -/
def serializeURL (u : URLRec) : String :=
  u.scheme ++ "://" ++
    (if u.username ≠ "" ∨ u.password ≠ "" then
      u.username ++ (if u.password ≠ "" then ":" ++ u.password else "") ++ "@"
    else "") ++
    u.host ++ serializePort u.port ++ serializePath u.scheme u.path

/-! ### Proxy URL utilities (src/utils/proxy.ts) -/

/-- `SUPPORTED_PROTOCOLS` (src/utils/proxy.ts line 11). -/
def SUPPORTED_PROTOCOLS : List String :=
  ["http", "https", "socks5"]

/-- Embedding of `getDefaultPort` (src/utils/proxy.ts lines 152-163). -/
def getDefaultPort (protocol : String) : String :=
  if protocol = "http" then "80"
  else if protocol = "https" then "443"
  else if protocol = "socks5" then "1080"
  else ""

/-- Embedding of `isValidProxyUrl` (src/utils/proxy.ts lines 20-45):
parse with `new URL`; require a supported protocol and a non-empty host;
then take the explicit port or the protocol default and require it to be
a non-empty numeric string (`!port || isNaN(Number(port))`).  Note the
source performs no range or positivity check here. -/
def isValidProxyUrl (url : String) : Bool :=
  match parseURL url with
  | none => false
  | some parsed =>
    if !SUPPORTED_PROTOCOLS.contains parsed.scheme then false
    else if parsed.host = "" then false
    else
      let port :=
        match parsed.port with
        | some p => natToString p
        | none => getDefaultPort parsed.scheme
      if port = "" then false
      else if !(port.data.all isDigitChar) then false
      else true

/-- The error kinds `parseProxyUrl` raises. -/
inductive ProxyParseError where
| invalidFormat
| unsupportedProtocol
| missingHost
| invalidPort
deriving DecidableEq, Repr

/-- Embedding of `parseProxyUrl` (src/utils/proxy.ts lines 55-101):
parse, validate protocol and host, compute the port (explicit or
default, rejecting 0 and anything above 65535), and URL-decode the
credentials when present. -/
def parseProxyUrl (url : String) : Except ProxyParseError ProxyConfig :=
  match parseURL url with
  | none => .error .invalidFormat
  | some parsed =>
    if !SUPPORTED_PROTOCOLS.contains parsed.scheme then
      .error .unsupportedProtocol
    else if parsed.host = "" then .error .missingHost
    else
      let portStr :=
        match parsed.port with
        | some p => natToString p
        | none => getDefaultPort parsed.scheme
      let port := digitsVal portStr.data
      if port = 0 ∨ port > 65535 then .error .invalidPort
      else
        .ok
          { protocol := parsed.scheme, host := parsed.host, port := port,
            username :=
              if parsed.username ≠ "" then
                some (decodeURIComponent parsed.username)
              else none,
            password :=
              if parsed.password ≠ "" then
                some (decodeURIComponent parsed.password)
              else none }

/-- The fallback regex replace of `sanitizeForDisplay`:
`url.replace(/\/\/[^@]+@/, '//***@')` (first match only). -/
def maskAux : List Char → List Char
  | [] => []
  | c1 :: rest1 =>
    match rest1 with
    | [] => [c1]
    | c2 :: rest =>
      if c1 = '/' ∧ c2 = '/' then
        match splitFirstChar '@' rest with
        | some (a, b) =>
          if a ≠ [] then
            '/' :: '/' :: '*' :: '*' :: '*' :: '@' :: b
          else c1 :: maskAux (c2 :: rest)
        | none => c1 :: maskAux (c2 :: rest)
      else c1 :: maskAux (c2 :: rest)

/-- Embedding of `sanitizeForDisplay` (src/utils/proxy.ts lines 110-121):
erase the credentials of a parseable URL and re-serialize; mask the first
`//…@` run of an unparseable one. -/
def sanitizeForDisplay (url : String) : String :=
  match parseURL url with
  | none => String.mk (maskAux url.data)
  | some parsed => serializeURL { parsed with username := "", password := "" }

/-- Embedding of `buildProxyUrl` (src/utils/proxy.ts lines 129-144):
`<proto>://[enc(user)[:enc(pass)]@]<host>:<port>`, with the credentials
block emitted only when `username` is truthy and the password segment only
when additionally `password` is truthy. -/
def buildProxyUrl (config : ProxyConfig) : String :=
  config.protocol ++ "://" ++
    (match config.username with
     | some u =>
       if u ≠ "" then
         encodeURIComponent u ++
           (match config.password with
            | some p =>
              if p ≠ "" then ":" ++ encodeURIComponent p else ""
            | none => "") ++ "@"
       else ""
     | none => "") ++
    config.host ++ ":" ++ natToString config.port

/-- The §4.A *Validate* specification, written from the spec's words: the
string parses, the scheme is supported, the host is non-empty, and the
port (explicit, or the protocol default 80/443/1080 when absent) is a
positive integer strictly below 65536. -/
def specEffectivePort (u : URLRec) : Nat :=
  match u.port with
  | some p => p
  | none =>
    if u.scheme = "http" then 80
    else if u.scheme = "https" then 443
    else if u.scheme = "socks5" then 1080
    else 0

/-- Spec-side validity predicate for claim C4, as stated (positive
port). -/
def specValidProxyUrl (s : String) : Bool :=
  match parseURL s with
  | none => false
  | some u =>
    SUPPORTED_PROTOCOLS.contains u.scheme && u.host != "" &&
      decide (0 < specEffectivePort u) &&
      decide (specEffectivePort u < 65536)

/-- Spec-side validity predicate with the positivity requirement dropped
(the amended C4). -/
def specValidProxyUrlAmended (s : String) : Bool :=
  match parseURL s with
  | none => false
  | some u =>
    SUPPORTED_PROTOCOLS.contains u.scheme && u.host != "" &&
      decide (specEffectivePort u < 65536)

/-- A substring matching the regex `//[^/]+:[^/]+@` exists in `s`. -/
def HasCredPattern (s : String) : Prop :=
  ∃ pre a b post,
    s.data = pre ++ ['/', '/'] ++ a ++ [':'] ++ b ++ ['@'] ++ post ∧
    a ≠ [] ∧ b ≠ [] ∧ (∀ c ∈ a, c ≠ '/') ∧ (∀ c ∈ b, c ≠ '/')

/-! ### File-system model (src/utils/fs.ts, downloader's fileExistsSync)

The file system is a finite map from paths to stat records. -/

/-- Result of `stat`: whether the path is a regular file, and its size. -/
structure FileStat where
  isFile : Bool
  size : Nat
deriving DecidableEq, Repr

/-- Embedding of `fileExistsWithContent` (src/utils/fs.ts lines 53-60):
`stat` succeeds, `isFile()`, and `size > 0`; a failed `stat` (path absent)
gives false. -/
def fileExistsWithContent (fs : String → Option FileStat)
    (filePath : String) : Bool :=
  match fs filePath with
  | some stats => stats.isFile && decide (stats.size > 0)
  | none => false

/-- Embedding of `NovelDownloader.fileExistsSync`
(src/services/downloader.ts): the synchronous twin of
`fileExistsWithContent`, used by cache validation. -/
def fileExistsSync (fs : String → Option FileStat) (filePath : String) : Bool :=
  match fs filePath with
  | some stats => stats.isFile && decide (stats.size > 0)
  | none => false

/-- Model of node's `path.join(base, rel)` for a relative tail: the two
segments joined by a single separator (path normalisation for exotic
segments is outside the model). -/
def joinPath (a b : String) : String :=
  a ++ "/" ++ b

/-! ### Footnote engine (ContentProcessor, src/services/content-processor.ts)

The engine works on an HTML string; the embedding tokenises the fragment
into the syntactic units the engine's selectors and regexes act on:

* `marker pre id` — a match of pattern one,
  `(?:\(\d+\)|\[\d+\])?\s*\[(note\d+)\]`, with `pre` the optional
  preceding-number group (`(k)` or `[k]`);
* `anchorRef id txt` — a match of pattern two,
  `<a … href="#note\d+" …>txt</a>`;
* `noteDiv id content` — a `div[id]` whose extracted note text
  (`span.note-content_real` text if present, else the div's own text,
  both pre-trim) is `content`;
* `noteReg` — a `.note-reg` container;
* `noteref frag label` — an emitted
  `<a epub:type="noteref" href="#frag" class="footnote-link">label</a>`
  (`frag` is the href fragment without the `#`);
* `aside id header content` — an emitted footnote `<aside>` block;
* `text` — any other HTML text, passed through untouched.

Raw chapter HTML contains no `noteref` and no `aside` tokens; those are
what the pipeline emits. -/

inductive HNode where
| text (s : String)
| marker (pre : Option String) (id : String)
| anchorRef (id : String) (txt : String)
| noteDiv (id : String) (content : String)
| noteReg
| noteref (frag : String) (label : String)
| aside (id : String) (header : String) (content : String)
deriving DecidableEq, Repr

/-- The aside id carried by a node, if it is an aside. -/
def HNode.asideId? : HNode → Option String
  | .aside id _ _ => some id
  | _ => none

/-- The noteref href fragment carried by a node, if it is a noteref. -/
def HNode.noterefFrag? : HNode → Option String
  | .noteref frag _ => some frag
  | _ => none

/-- All aside ids of a fragment, in order. -/
def asideIds (l : List HNode) : List String :=
  l.filterMap HNode.asideId?

/-- All noteref href fragments of a fragment, in order. -/
def noterefFrags (l : List HNode) : List String :=
  l.filterMap HNode.noterefFrag?

/-- The `/^note\d+$/` test on an element id. -/
def isNoteId (id : String) : Bool :=
  isPrefixList ['n', 'o', 't', 'e'] id.data &&
  !(id.data.drop 4).isEmpty && (id.data.drop 4).all isDigitChar

/-- Lookup in the footnote map (a JavaScript `Map` in insertion order,
modelled as an association list with unique keys). -/
def lookupStr (m : List (String × String)) (k : String) : Option String :=
  match m with
  | [] => none
  | (k1, v) :: rest => if k1 = k then some v else lookupStr rest k

/-- `Map.set`: overwrite in place when the key exists, append otherwise. -/
def mapSet (m : List (String × String)) (k v : String) :
    List (String × String) :=
  match m with
  | [] => [(k, v)]
  | (k1, v1) :: rest =>
    if k1 = k then (k1, v) :: rest else (k1, v1) :: mapSet rest k v

/-- The footnote-definition scan of `processFootnotes` step 1
(also `extractFootnoteDefinitions`): every `div[id]` matching
`/^note\d+$/` contributes its trimmed note text when non-empty. -/
def extractFootnoteMap (html : List HNode) : List (String × String) :=
  html.foldl
    (fun m n =>
      match n with
      | .noteDiv id content =>
        if isNoteId id ∧ trimStr content ≠ "" then
          mapSet m id (trimStr content)
        else m
      | _ => m) []

/-- Step 1's removals: every matching `div[id^=note]` is removed (whether
or not its content was empty), and so is any `.note-reg` container. -/
def stripNoteDefs (html : List HNode) : List HNode :=
  html.filter fun n =>
    match n with
    | .noteDiv id _ => !isNoteId id
    | .noteReg => false
    | _ => true

/-- One-pass stateful map over the fragment (the state carries
`usedNotes` and the shared label counter), mirroring a `String.replace`
sweep with a stateful callback. -/
def mapAccum (f : List String × Nat → HNode → HNode × (List String × Nat)) :
    List HNode → List String × Nat → List HNode × (List String × Nat)
  | [], s => ([], s)
  | n :: rest, s =>
    let out := f s n
    let outs := mapAccum f rest out.2
    (out.1 :: outs.1, outs.2)

/-- The pattern-one callback of `convertFootnoteMarkers`
(src lines 457-481): a `[noteN]` marker whose id is in the map becomes a
noteref with href fragment `<slug>_<id>`; the label is the trimmed
preceding group when one was matched, else `[counter]` with the counter
bumped; the id is appended to `usedNotes` unless already present.
Markers whose id is not in the map are left untouched. -/
def markerStep (footnoteMap : List (String × String)) (chapterSlug : String)
    (s : List String × Nat) (n : HNode) : HNode × (List String × Nat) :=
  match n with
  | .marker pre id =>
    if (lookupStr footnoteMap id).isSome then
      let used1 := if s.1.contains id then s.1 else s.1 ++ [id]
      match pre with
      | some p =>
        (.noteref (chapterSlug ++ "_" ++ id) (trimStr p), (used1, s.2))
      | none =>
        (.noteref (chapterSlug ++ "_" ++ id) ("[" ++ toString s.2 ++ "]"),
          (used1, s.2 + 1))
    else (n, s)
  | _ => (n, s)

/-- The pattern-two callback of `convertFootnoteMarkers`
(src lines 485-500): an `<a href="#noteN">` anchor whose id is in the map
becomes a noteref with href fragment `<slug>_<id>`; the label is the
trimmed link text, or `[counter++]` when that is empty. -/
def anchorStep (footnoteMap : List (String × String)) (chapterSlug : String)
    (s : List String × Nat) (n : HNode) : HNode × (List String × Nat) :=
  match n with
  | .anchorRef id txt =>
    if (lookupStr footnoteMap id).isSome then
      let used1 := if s.1.contains id then s.1 else s.1 ++ [id]
      if trimStr txt ≠ "" then
        (.noteref (chapterSlug ++ "_" ++ id) (trimStr txt), (used1, s.2))
      else
        (.noteref (chapterSlug ++ "_" ++ id) ("[" ++ toString s.2 ++ "]"),
          (used1, s.2 + 1))
    else (n, s)
  | _ => (n, s)

/-- Embedding of `ContentProcessor.convertFootnoteMarkers`
(src lines 441-503): pattern one over the whole fragment, then pattern
two, sharing the 1-based counter and the `usedNotes` accumulator. -/
def convertFootnoteMarkers (html : List HNode)
    (footnoteMap : List (String × String)) (chapterSlug : String) :
    List HNode × List String :=
  let p1 := mapAccum (markerStep footnoteMap chapterSlug) html ([], 1)
  let p2 := mapAccum (anchorStep footnoteMap chapterSlug) p1.1 p1.2
  (p2.1, p2.2.1)

/-- The referenced-footnote blocks of `generateFootnoteAsides`: one aside
per entry of `usedNotes` in order, skipping ids whose map content is
absent or empty (the `if (content)` truthiness test). -/
def usedAsideBlocks (footnoteMap : List (String × String))
    (chapterSlug : String) : List String → List HNode
  | [] => []
  | id :: rest =>
    match lookupStr footnoteMap id with
    | some content =>
      if content ≠ "" then
        .aside (chapterSlug ++ "_" ++ id) "Ghi chú" content
          :: usedAsideBlocks footnoteMap chapterSlug rest
      else usedAsideBlocks footnoteMap chapterSlug rest
    | none => usedAsideBlocks footnoteMap chapterSlug rest

/-- The unreferenced-footnote blocks of `generateFootnoteAsides`: one
aside per map entry not in `usedNotes`, in map insertion order, with the
`Ghi chú (Thêm)` header (no emptiness test on this path). -/
def unusedAsideBlocks (usedNotes : List String) (chapterSlug : String) :
    List (String × String) → List HNode
  | [] => []
  | (id, content) :: rest =>
    if usedNotes.contains id then
      unusedAsideBlocks usedNotes chapterSlug rest
    else
      .aside (chapterSlug ++ "_" ++ id) "Ghi chú (Thêm)" content
        :: unusedAsideBlocks usedNotes chapterSlug rest

/-- Embedding of `ContentProcessor.generateFootnoteAsides`
(src lines 515-551).  The returned node list models the concatenated
`<aside>` blocks, in emission order. -/
def generateFootnoteAsides (usedNotes : List String)
    (footnoteMap : List (String × String)) (chapterSlug : String)
    (includeUnused : Bool) : List HNode :=
  usedAsideBlocks footnoteMap chapterSlug usedNotes ++
    (if includeUnused then
      unusedAsideBlocks usedNotes chapterSlug footnoteMap
    else [])

/-- Embedding of `ContentProcessor.processFootnotes`
(src lines 568-623): extract the footnote map, remove the definition divs
and `.note-reg`, convert markers, and append the asides with
`includeUnused = true`. -/
def processFootnotes (html : List HNode) (chapterSlug : String) : List HNode :=
  let footnoteMap := extractFootnoteMap html
  let conv := convertFootnoteMarkers (stripNoteDefs html) footnoteMap chapterSlug
  conv.1 ++ generateFootnoteAsides conv.2 footnoteMap chapterSlug true

/-- Concrete chapter fragment for the footnote-invariant witness:
`<p>hello [note1]</p><div id="note1">defn</div>` (scenario S6). -/
def c1Input : List HNode :=
  [.text "<p>hello ", .marker none "note1", .text "</p>",
    .noteDiv "note1" "defn"]

/-! ### Parsed img tags of a chapter body
(model of `cheerio.load` + `$('img')` + `.attr('src')`)

`validateCachedChapter` parses the cached content and walks its `img`
elements.  The scanner below models that walk: each occurrence of `<img`
opens a tag whose attribute text runs to the next `>`, and the first
`src=` attribute value is extracted (double-quoted, single-quoted, or
unquoted).  `none` models a missing `src` attribute.  Tags are lowercase
(cheerio normalises tag names); `src=` occurring inside another
attribute's value is outside the model. -/

/-- The remainder immediately after the first occurrence of `pat`. -/
def afterSub (pat : List Char) : List Char → Option (List Char)
  | [] => none
  | c :: rest =>
    if isPrefixList pat (c :: rest) then some ((c :: rest).drop pat.length)
    else afterSub pat rest

/-- The value of the first `src=` attribute in a tag's attribute text. -/
def imgSrcAttr (attrs : List Char) : Option String :=
  match afterSub ['s', 'r', 'c', '='] attrs with
  | none => none
  | some rest =>
    match rest with
    | [] => some ""
    | q :: vs =>
      if q.toNat = 34 then
        some (String.mk (vs.takeWhile (fun d => d.toNat ≠ 34)))
      else if q.toNat = 39 then
        some (String.mk (vs.takeWhile (fun d => d.toNat ≠ 39)))
      else
        some (String.mk ((q :: vs).takeWhile (fun d => !isWsChar d)))

/-- Scan a character list for `<img` tags, in document order. -/
def imgSrcListAux (l : List Char) : List (Option String) :=
  match l with
  | [] => []
  | c :: rest =>
    if isPrefixList ['<', 'i', 'm', 'g'] (c :: rest) then
      let afterTag := rest.drop 3
      let attrs := afterTag.takeWhile (fun d => d.toNat ≠ 62)
      imgSrcAttr attrs :: imgSrcListAux (afterTag.drop attrs.length)
    else imgSrcListAux rest
termination_by l.length
decreasing_by
  · simp only [List.length_cons, List.length_drop]
    have h1 : (rest.drop 3).length = rest.length - 3 := List.length_drop 3 rest
    have h2 : ((rest.drop 3).drop
        ((rest.drop 3).takeWhile (fun d => d.toNat ≠ 62)).length).length
        = (rest.drop 3).length
          - ((rest.drop 3).takeWhile (fun d => d.toNat ≠ 62)).length :=
      List.length_drop _ _
    omega
  · simp only [List.length_cons]
    omega

/-- The `src` attributes of the `img` elements of an HTML string, in
document order. -/
def imgSrcList (content : String) : List (Option String) :=
  imgSrcListAux content.data

/-- A Materialized Chapter record as persisted by the downloader
(`ChapterContent` in src/types). -/
structure ChapterContent where
  title : String
  url : String
  content : String
  index : Nat
deriving DecidableEq, Repr

/-- The per-image check of `validateCachedChapter`: images whose `src` is
missing, empty, or does not start with `images/` are ignored; a local
`images/…` reference must exist as a non-empty regular file under the base
folder. -/
def cachedImgOk (fs : String → Option FileStat) (baseFolder : String)
    (src? : Option String) : Bool :=
  match src? with
  | none => true
  | some src =>
    if src = "" then true
    else if isPrefixList "images/".data src.data then
      fileExistsSync fs (joinPath baseFolder src)
    else true

/-- Embedding of `NovelDownloader.validateCachedChapter`
(src/services/downloader.ts, dist lines 260-287): reject an absent or
empty content, reject content shorter than 50 characters, then check every
`<img src>` starting with `images/` against the file system. -/
def validateCachedChapter (fs : String → Option FileStat)
    (baseFolder : String) (chapterData : ChapterContent) : Bool :=
  if chapterData.content = "" then false
  else if chapterData.content.length < 50 then false
  else (imgSrcList chapterData.content).all (cachedImgOk fs baseFolder)

/-! ### Network fabric model (src/services/network.ts)

`fetchWithRetry` is modelled as a loop over an oracle list prescribing the
outcome of each dispatch.  One `StepOutcome` covers one loop iteration:
the dispatch outcome (direct fetch or proxy failover), and, should that
iteration run the domain-rotation sweep, the rotation result
(`some (status, body)` is the 2xx response `rotateDomainsAndRetry` found,
`none` means the sweep returned null). -/

/-- Outcome of the dispatch inside one retry-loop iteration: a completed
HTTP response (status plus optional body, `none` modelling a null body), a
thrown transport error, or a thrown `ProxyError` from the failover path. -/
inductive Dispatch where
| resp (status : Nat) (body : Option String)
| transportError
| proxyError
deriving DecidableEq, Repr

/-- Oracle entry for one retry-loop iteration. -/
structure StepOutcome where
  d : Dispatch
  rot : Option (Nat × Option String)
deriving DecidableEq, Repr

/-- Error categories raised by the fabric (see spec section 7). -/
inductive NetErr where
| rateLimited
| httpStatus (status : Nat)
| transport
| allProxiesFailed
| noAttempts
deriving DecidableEq, Repr

/-- Result of `fetchWithRetry`: a 2xx response, a raised error, or the
marker that the oracle list ran out before the loop finished (the run is
not determined by the supplied oracle). -/
inductive FetchResult where
| success (status : Nat) (body : Option String)
| failure (e : NetErr)
| outOfOracle
deriving DecidableEq, Repr

/-- Mutable locals of one `fetchWithRetry` call: the loop counter
`attempt`, the separated 429 counter `rateLimitRetries`, the recorded
`lastError`, the seconds slept so far (429 waits, backoff waits, anti-ban
wait), and the fabric's `requestCount`. -/
structure RetryState where
  attempt : Nat
  rateLimitRetries : Nat
  lastError : Option NetErr
  sleptSeconds : List Nat
  requestCount : Nat
deriving DecidableEq, Repr

/-- `NETWORK.MAX_RETRIES` from src/config/constants.ts. -/
def NETWORK_MAX_RETRIES : Nat := 3

/-- The `maxRateLimitRetries = 5` local of `fetchWithRetry`. -/
def maxRateLimitRetries : Nat := 5

/-- `response.ok` of the fetch API: status in the range 200-299. -/
def isOkStatus (status : Nat) : Bool :=
  200 ≤ status && status ≤ 299

/-- The `throw lastError ?? new Error(...)` after the retry loop. -/
def throwLast (st : RetryState) : FetchResult :=
  .failure (st.lastError.getD .noAttempts)

/-- The state transformation at the bottom of a loop iteration that falls
through to the backoff: sleep `2 ^ attempt` seconds when another attempt
remains, then the `for`-update increments `attempt`. -/
def backoffStep (st : RetryState) : RetryState :=
  let st1 := if st.attempt < NETWORK_MAX_RETRIES - 1
    then { st with sleptSeconds := st.sleptSeconds ++ [2 ^ st.attempt] }
    else st
  { st1 with attempt := st1.attempt + 1 }

/-- Embedding of the retry loop of `NetworkManager.fetchWithRetry`
(src/services/network.ts lines 333-405).  Notes tying the model to the
source: a completed direct dispatch increments `requestCount` before the
`ok` test; the 429 branch increments `rateLimitRetries`, sleeps
`min(30·k, 120)` seconds while the budget lasts and then continues with
`attempt--` immediately followed by the `for`-update `attempt++` — the
model records the net effect, an unchanged `attempt`; with the budget
exhausted it records the rate-limit error and breaks, and the post-loop
`throw lastError` raises it; domain rotation runs only when
`rotEligible` (no proxy pool and an internal URL) and its 2xx result is
returned directly (one more counted request); a `ProxyError` is rethrown
at once; every other path records `lastError` and falls through to the
exponential backoff. -/
def rotOutcome (rotEligible : Bool) (rot : Option (Nat × Option String)) :
    Option (Nat × Option String) :=
  if rotEligible then rot else none

def fetchLoop (rotEligible : Bool) :
    List StepOutcome → RetryState → FetchResult × RetryState × List StepOutcome
  | oracle, st =>
    if st.attempt < NETWORK_MAX_RETRIES then
      match oracle with
      | [] => (.outOfOracle, st, [])
      | step :: rest =>
        match step.d with
        | .resp status body =>
          let st1 := { st with requestCount := st.requestCount + 1 }
          if isOkStatus status then (.success status body, st1, rest)
          else if status = 429 then
            let k := st1.rateLimitRetries + 1
            if k ≤ maxRateLimitRetries then
              fetchLoop rotEligible rest
                { st1 with
                  rateLimitRetries := k,
                  sleptSeconds := st1.sleptSeconds ++ [min (30 * k) 120] }
            else
              (.failure .rateLimited,
                { st1 with
                  rateLimitRetries := k,
                  lastError := some .rateLimited }, rest)
          else
            match rotOutcome rotEligible step.rot with
            | some (rst, rbody) =>
              (.success rst rbody,
                { st1 with requestCount := st1.requestCount + 1 }, rest)
            | none =>
              fetchLoop rotEligible rest
                (backoffStep { st1 with lastError := some (.httpStatus status) })
        | .transportError =>
          match rotOutcome rotEligible step.rot with
          | some (rst, rbody) =>
            (.success rst rbody,
              { st with requestCount := st.requestCount + 1 }, rest)
          | none =>
            fetchLoop rotEligible rest
              (backoffStep { st with lastError := some .transport })
        | .proxyError => (.failure .allProxiesFailed, st, rest)
    else (throwLast st, st, oracle)

/-- World state threaded through the effectful operations: the file
system, the fabric's request counter, the pending network oracle, and
whether domain rotation is eligible for the URL at hand. -/
structure World where
  fs : String → Option FileStat
  requestCount : Nat
  oracle : List StepOutcome
  rotEligible : Bool

/-- The anti-ban gate at the top of `fetchWithRetry`
(`applyAntiBan`, src/services/network.ts): a 30-second sleep when
`requestCount` is a positive multiple of 100. -/
def antiBanSleeps (requestCount : Nat) : List Nat :=
  if 0 < requestCount ∧ requestCount % 100 = 0 then [30] else []

/-- Embedding of `NetworkManager.fetchWithRetry` at the world level:
apply the anti-ban gate, run the retry loop, and commit the request
counter and the unconsumed oracle back to the world. -/
def fetchWithRetry (w : World) : FetchResult × World :=
  let st0 : RetryState :=
    ⟨0, 0, none, antiBanSleeps w.requestCount, w.requestCount⟩
  let out := fetchLoop w.rotEligible w.oracle st0
  (out.1, { w with requestCount := out.2.1.requestCount, oracle := out.2.2 })

/-- Writing a file: the streamed body lands at `savePath`, its size being
the body length. -/
def writeFileTo (fs : String → Option FileStat) (savePath body : String) :
    String → Option FileStat :=
  fun q => if q = savePath then some ⟨true, body.length⟩ else fs q

/-- Embedding of `NetworkManager.downloadToFile`
(src/services/network.ts lines 416-438): return true at once when the
target exists with non-zero size (no fetch, world untouched); otherwise
fetch with retry, fail on a null body or a raised error, and write the
streamed body on success.  `ensureDir` touches only directories, which the
file-system model does not track. -/
def downloadToFile (w : World) (url savePath : String) : Bool × World :=
  if fileExistsWithContent w.fs savePath then (true, w)
  else
    match fetchWithRetry w with
    | (.success _ (some b), w') =>
      (true, { w' with fs := writeFileTo w'.fs savePath b })
    | (.success _ none, w') => (false, w')
    | (.failure _, w') => (false, w')
    | (.outOfOracle, w') => (false, w')

/-- Concrete world for the existence-skip scenario: `/tmp/exist` is a
12-byte regular file; the counter is 7 and one oracle entry is pending. -/
def c8World : World :=
  ⟨fun q => if q = "/tmp/exist" then some ⟨true, 12⟩ else none,
    7, [⟨.resp 200 (some "x"), none⟩], true⟩

/-- The credentials block `user[:pass]` of a proxy authority. -/
def credsData (uc : List Char) (pcOpt : Option (List Char)) : List Char :=
  match pcOpt with
  | none => uc
  | some pc => uc ++ ':' :: pc

/-! ### Lemmas about `trimCharList` -/

theorem head?_dropWhile_false {p : Char → Bool} :
    ∀ {l : List Char} {x : Char}, (l.dropWhile p).head? = some x → p x = false := by
  intro l
  induction l with
  | nil => intro x h; simp [List.dropWhile] at h
  | cons a t ih =>
    intro x h
    rw [List.dropWhile_cons] at h
    by_cases hpa : p a = true
    · rw [if_pos hpa] at h; exact ih h
    · rw [if_neg hpa] at h
      simp at h
      rw [← h]
      simpa using hpa

theorem dropWhile_eq_self_of_head? {p : Char → Bool} {l : List Char}
    (h : ∀ x, l.head? = some x → p x = false) : l.dropWhile p = l := by
  cases l with
  | nil => rfl
  | cons a t =>
    rw [List.dropWhile_cons, if_neg]
    simp [h a rfl]

theorem dropWhile_dropWhile (p : Char → Bool) (l : List Char) :
    (l.dropWhile p).dropWhile p = l.dropWhile p :=
  dropWhile_eq_self_of_head? (fun _ hx => head?_dropWhile_false hx)

theorem dropWhile_exists_append (p : Char → Bool) (l : List Char) :
    ∃ pre, l = pre ++ l.dropWhile p := by
  induction l with
  | nil => exact ⟨[], rfl⟩
  | cons a t ih =>
    rw [List.dropWhile_cons]
    by_cases hpa : p a = true
    · rw [if_pos hpa]
      obtain ⟨pre, hpre⟩ := ih
      exact ⟨a :: pre, by simp [← hpre]⟩
    · rw [if_neg hpa]
      exact ⟨[], rfl⟩

theorem head?_trimCharList_false {l : List Char} {x : Char}
    (h : (trimCharList l).head? = some x) : isWsChar x = false := by
  unfold trimCharList at h
  set a := l.dropWhile isWsChar with ha
  set b := a.reverse.dropWhile isWsChar with hb
  obtain ⟨pre, hpre⟩ := dropWhile_exists_append isWsChar a.reverse
  rw [← hb] at hpre
  have hbne : b ≠ [] := by
    intro hnil
    rw [hnil] at h; simp at h
  have h1 : b.reverse.head? = b.getLast? := List.head?_reverse b
  have h2 : a.reverse.getLast? = b.getLast? := by
    rw [hpre]
    exact List.getLast?_append_of_ne_nil pre hbne
  have h3 : a.reverse.getLast? = a.head? := List.getLast?_reverse a
  have hhead : a.head? = some x := by
    rw [← h3, h2, ← h1]; exact h
  exact head?_dropWhile_false (ha ▸ hhead)

theorem trimCharList_trimCharList (l : List Char) :
    trimCharList (trimCharList l) = trimCharList l := by
  have hstep : (trimCharList l).dropWhile isWsChar = trimCharList l :=
    dropWhile_eq_self_of_head? (fun _ hx => head?_trimCharList_false hx)
  show trimCharList (trimCharList l) = trimCharList l
  conv_lhs => rw [trimCharList, hstep]
  rw [trimCharList, List.reverse_reverse, dropWhile_dropWhile]

theorem mem_trimCharList_subset {l : List Char} {x : Char}
    (h : x ∈ trimCharList l) : x ∈ l := by
  rw [trimCharList, List.mem_reverse] at h
  have h2 := (List.dropWhile_sublist (l := (l.dropWhile isWsChar).reverse)
    (p := isWsChar)).mem h
  rw [List.mem_reverse] at h2
  exact (List.dropWhile_sublist (l := l) (p := isWsChar)).mem h2

theorem preTruncate_no_invalid {name : String} {c : Char}
    (hc : c ∈ formatFilenamePreTruncate name) : isInvalidFilenameChar c = false := by
  have hc' := mem_trimCharList_subset hc
  rcases List.mem_map.1 hc' with ⟨c₀, hc₀, rfl⟩
  have h₀ : isInvalidFilenameChar c₀ = false := by
    have := (List.mem_filter.1 hc₀).2
    simpa using this
  by_cases h : c₀ = ' '
  · simp [h]; decide
  · simp [h, h₀]

theorem preTruncate_no_space {name : String} {c : Char}
    (hc : c ∈ formatFilenamePreTruncate name) : c ≠ ' ' := by
  have hc' := mem_trimCharList_subset hc
  rcases List.mem_map.1 hc' with ⟨c₀, _, rfl⟩
  by_cases h : c₀ = ' '
  · simp [h]
  · simp [h]

theorem formatFilename_of_preTruncate_short {name : String}
    (h : (formatFilenamePreTruncate name).length ≤ 100) :
    (formatFilename name).data = formatFilenamePreTruncate name := by
  show (formatFilenamePreTruncate name).take 100 = formatFilenamePreTruncate name
  exact List.take_of_length_le h

/-- C7, counterexample: `formatFilename` is not idempotent.  At 99 `a`s
followed by a tab and a `b`, the 100-character truncation leaves a trailing
tab that a second application trims away. -/
theorem formatFilename_idempotent_counterexample :
    formatFilename (formatFilename c7BadInput) ≠ formatFilename c7BadInput := by
  decide

/-- C7 (amended): `formatFilename` removes `\\ / * ? : " < > |`, replaces
spaces with underscores, trims, and truncates to 100 characters (so its
output length is at most 100); it is idempotent on every input whose
processed (pre-truncation) form fits within the 100-character limit
(truncation can expose trailing whitespace, which breaks idempotence in
general); and it maps an all-ASCII-alphanumeric input to its first 100
characters unchanged. -/
theorem formatFilename_amended_spec :
    (∀ name : String, (formatFilename name).length ≤ 100) ∧
    (∀ name : String, (formatFilenamePreTruncate name).length ≤ 100 →
        formatFilename (formatFilename name) = formatFilename name) ∧
    (∀ name : String, (∀ c ∈ name.data, isAsciiAlphanum c = true) →
        formatFilename name = String.mk (name.data.take 100)) := by
  refine ⟨?_, ?_, ?_⟩
  · intro name
    show (String.mk ((formatFilenamePreTruncate name).take 100)).length ≤ 100
    have : (String.mk ((formatFilenamePreTruncate name).take 100)).length
        = ((formatFilenamePreTruncate name).take 100).length := rfl
    rw [this, List.length_take]
    omega
  · intro name h
    have hdata := formatFilename_of_preTruncate_short h
    have hfilter : (formatFilename name).data.filter
        (fun c => !isInvalidFilenameChar c) = (formatFilename name).data := by
      refine List.filter_eq_self.2 (fun c hc => ?_)
      rw [hdata] at hc
      simp [preTruncate_no_invalid hc]
    have hmap : ((formatFilename name).data.filter
        (fun c => !isInvalidFilenameChar c)).map
        (fun c => if c = ' ' then '_' else c) = (formatFilename name).data := by
      rw [hfilter]
      have : ∀ c ∈ (formatFilename name).data,
          (if c = ' ' then '_' else c) = id c := by
        intro c hc
        rw [hdata] at hc
        simp [preTruncate_no_space hc]
      rw [List.map_congr_left this, List.map_id]
    have hpre : formatFilenamePreTruncate (formatFilename name)
        = formatFilenamePreTruncate name := by
      rw [formatFilenamePreTruncate, hmap, hdata, formatFilenamePreTruncate]
      exact trimCharList_trimCharList _
    show String.mk ((formatFilenamePreTruncate (formatFilename name)).take 100)
        = formatFilename name
    rw [hpre]
    rfl
  · intro name hall
    have h1 : name.data.filter (fun c => !isInvalidFilenameChar c) = name.data := by
      refine List.filter_eq_self.2 (fun c hc => ?_)
      have h := hall c hc
      simp only [isAsciiAlphanum, Bool.or_eq_true, Bool.and_eq_true,
        decide_eq_true_eq] at h
      simp only [Bool.not_eq_true', isInvalidFilenameChar,
        Bool.or_eq_false_iff, decide_eq_false_iff_not]
      omega
    have hnospace : ∀ c ∈ name.data, c ≠ ' ' := by
      intro c hc heq
      have := hall c hc
      rw [heq] at this
      simp [isAsciiAlphanum] at this
    have h2 : name.data.map (fun c => if c = ' ' then '_' else c) = name.data := by
      have : ∀ c ∈ name.data, (if c = ' ' then '_' else c) = id c := by
        intro c hc
        simp [hnospace c hc]
      rw [List.map_congr_left this, List.map_id]
    have hnows : ∀ c ∈ name.data, isWsChar c = false := by
      intro c hc
      have h := hall c hc
      simp only [isAsciiAlphanum, Bool.or_eq_true, Bool.and_eq_true,
        decide_eq_true_eq] at h
      simp only [isWsChar, Bool.or_eq_false_iff, decide_eq_false_iff_not]
      omega
    have hdrop : ∀ (l : List Char), (∀ c ∈ l, isWsChar c = false) →
        l.dropWhile isWsChar = l := by
      intro l hl
      cases l with
      | nil => rfl
      | cons a t =>
        rw [List.dropWhile_cons, if_neg]
        simp [hl a (List.mem_cons_self a t)]
    have h3 : trimCharList name.data = name.data := by
      rw [trimCharList, hdrop _ hnows, hdrop]
      · simp
      · intro c hc
        exact hnows c (List.mem_reverse.1 hc)
    show String.mk ((formatFilenamePreTruncate name).take 100)
        = String.mk (name.data.take 100)
    rw [formatFilenamePreTruncate, h1, h2, h3]

/-- C7 witness: the amended theorem applied at concrete inputs. -/
theorem formatFilename_amended_spec_witness :
    (formatFilenamePreTruncate "a b").length ≤ 100 ∧
    formatFilename (formatFilename "a b") = formatFilename "a b" ∧
    formatFilename "abc" = String.mk ("abc".data.take 100) :=
  ⟨by decide, formatFilename_amended_spec.2.1 "a b" (by decide),
    formatFilename_amended_spec.2.2 "abc" (by decide)⟩

/-! ### Character and digit plumbing for the URL theorems -/

theorem charToNatInj {a b : Char} (h : a.toNat = b.toNat) : a = b :=
  Char.ext (UInt32.ext h)

theorem toNatCharOfNat {n : Nat} (h : n < 55296) : (Char.ofNat n).toNat = n := by
  have hv : n.isValidChar := Or.inl h
  rw [Char.ofNat, dif_pos hv]
  simp only [Char.ofNatAux, Char.toNat]
  rfl

theorem char_ne_of_toNat_ne {c d : Char} (h : c.toNat ≠ d.toNat) : c ≠ d :=
  fun he => h (by rw [he])

theorem not_mem_of_toNat_ne {l : List Char} {d : Char}
    (h : ∀ c ∈ l, c.toNat ≠ d.toNat) : d ∉ l :=
  fun hm => h d hm rfl

theorem contains_eq_false_of_not_mem {α : Type} [BEq α] [LawfulBEq α]
    {l : List α} {a : α} (h : a ∉ l) : l.contains a = false := by
  rw [show l.contains a = l.elem a from rfl, List.elem_eq_mem]
  simpa using h

theorem digitsVal_append_singleton (l : List Char) (c : Char) :
    digitsVal (l ++ [c]) = digitsVal l * 10 + (c.toNat - 48) := by
  simp [digitsVal, List.foldl_append]

theorem digitsVal_singleton (c : Char) : digitsVal [c] = c.toNat - 48 := by
  simp [digitsVal]

theorem natDigitsAux_spec :
    ∀ (fuel n : Nat), n ≤ fuel →
      digitsVal (natDigitsAux fuel n) = n ∧
      (∀ c ∈ natDigitsAux fuel n, isDigitChar c = true) ∧
      natDigitsAux fuel n ≠ [] := by
  intro fuel
  induction fuel with
  | zero =>
    intro n hn
    have h0 : n = 0 := by omega
    subst h0
    have htn : (Char.ofNat (48 + 0 % 10)).toNat = 48 := by
      rw [toNatCharOfNat (by omega)]
    refine ⟨?_, ?_, by simp [natDigitsAux]⟩
    · show digitsVal [Char.ofNat (48 + 0 % 10)] = 0
      rw [digitsVal_singleton, htn]
    · intro c hc
      simp only [natDigitsAux, List.mem_singleton] at hc
      subst hc
      simp [isDigitChar, htn]
  | succ fuel ih =>
    intro n hn
    by_cases h10 : n < 10
    · have htn : (Char.ofNat (48 + n)).toNat = 48 + n := by
        rw [toNatCharOfNat (by omega)]
      have hform : natDigitsAux (fuel + 1) n = [Char.ofNat (48 + n)] := by
        rw [natDigitsAux, if_pos h10]
      rw [hform]
      refine ⟨?_, ?_, by simp⟩
      · rw [digitsVal_singleton, htn]; omega
      · intro c hc
        simp only [List.mem_singleton] at hc
        subst hc
        simp only [isDigitChar, htn, Bool.and_eq_true, decide_eq_true_eq]
        omega
    · have hdiv : n / 10 ≤ fuel := by
        have := Nat.div_lt_self (show 0 < n by omega) (show 1 < 10 by omega)
        omega
      obtain ⟨ihv, ihd, ihn⟩ := ih (n / 10) hdiv
      have htn : (Char.ofNat (48 + n % 10)).toNat = 48 + n % 10 := by
        have := Nat.mod_lt n (show 0 < 10 by omega)
        rw [toNatCharOfNat (by omega)]
      have hform : natDigitsAux (fuel + 1) n
          = natDigitsAux fuel (n / 10) ++ [Char.ofNat (48 + n % 10)] := by
        rw [natDigitsAux, if_neg h10]
      rw [hform]
      refine ⟨?_, ?_, by simp⟩
      · rw [digitsVal_append_singleton, ihv, htn]
        have := Nat.div_add_mod n 10
        omega
      · intro c hc
        rcases List.mem_append.1 hc with hc | hc
        · exact ihd c hc
        · simp only [List.mem_singleton] at hc
          subst hc
          simp only [isDigitChar, htn, Bool.and_eq_true, decide_eq_true_eq]
          have := Nat.mod_lt n (show 0 < 10 by omega)
          omega

theorem digitsVal_natDigits (n : Nat) : digitsVal (natDigits n) = n :=
  (natDigitsAux_spec n n (Nat.le_refl n)).1

theorem natDigits_all_digit (n : Nat) :
    ∀ c ∈ natDigits n, isDigitChar c = true :=
  (natDigitsAux_spec n n (Nat.le_refl n)).2.1

theorem natDigits_ne_nil (n : Nat) : natDigits n ≠ [] :=
  (natDigitsAux_spec n n (Nat.le_refl n)).2.2

theorem mk_eq_empty_iff {l : List Char} : String.mk l = "" ↔ l = [] := by
  constructor
  · intro h
    exact congrArg String.data h
  · intro h
    rw [h]

theorem natToString_ne_empty (n : Nat) : natToString n ≠ "" := by
  rw [natToString]
  intro h
  exact natDigits_ne_nil n (mk_eq_empty_iff.1 h)

/-! ### Splitter lemmas -/

theorem splitFirstChar_eq_none {sep : Char} :
    ∀ {l : List Char}, sep ∉ l → splitFirstChar sep l = none := by
  intro l
  induction l with
  | nil => intro _; rfl
  | cons c rest ih =>
    intro h
    have hc : c ≠ sep := fun he => h (he ▸ List.mem_cons_self c rest)
    rw [splitFirstChar, if_neg hc, ih (fun hm => h (List.mem_cons_of_mem c hm))]

theorem splitFirstChar_append {sep : Char} :
    ∀ {l1 : List Char} (l2 : List Char), sep ∉ l1 →
      splitFirstChar sep (l1 ++ sep :: l2) = some (l1, l2) := by
  intro l1
  induction l1 with
  | nil =>
    intro l2 _
    rw [List.nil_append, splitFirstChar, if_pos rfl]
  | cons c rest ih =>
    intro l2 h
    have hc : c ≠ sep := fun he => h (he ▸ List.mem_cons_self c rest)
    rw [List.cons_append, splitFirstChar, if_neg hc,
      ih l2 (fun hm => h (List.mem_cons_of_mem c hm))]

theorem splitLastChar_eq_none {sep : Char} {l : List Char} (h : sep ∉ l) :
    splitLastChar sep l = none := by
  rw [splitLastChar, splitFirstChar_eq_none (by simpa using h)]

theorem splitLastChar_append {sep : Char} {l1 l2 : List Char}
    (h1 : sep ∉ l1) (h2 : sep ∉ l2) :
    splitLastChar sep (l1 ++ sep :: l2) = some (l1, l2) := by
  rw [splitLastChar]
  have hrev : (l1 ++ sep :: l2).reverse = l2.reverse ++ sep :: l1.reverse := by
    simp
  rw [hrev, splitFirstChar_append l1.reverse (by simpa using h2)]
  simp

theorem takeWhile_all_true {p : Char → Bool} :
    ∀ {l : List Char}, (∀ c ∈ l, p c = true) → l.takeWhile p = l := by
  intro l
  induction l with
  | nil => intro _; rfl
  | cons c rest ih =>
    intro h
    rw [List.takeWhile_cons, if_pos (h c (List.mem_cons_self c rest)),
      ih (fun x hx => h x (List.mem_cons_of_mem c hx))]

theorem dropWhile_all_true {p : Char → Bool} :
    ∀ {l : List Char}, (∀ c ∈ l, p c = true) → l.dropWhile p = [] := by
  intro l
  induction l with
  | nil => intro _; rfl
  | cons c rest ih =>
    intro h
    rw [List.dropWhile_cons, if_pos (h c (List.mem_cons_self c rest)),
      ih (fun x hx => h x (List.mem_cons_of_mem c hx))]

theorem takeUntilStops_all {stops l : List Char}
    (h : ∀ c ∈ l, stops.contains c = false) :
    takeUntilStops stops l = (l, []) := by
  rw [takeUntilStops,
    takeWhile_all_true (fun c hc => by simp only [h c hc, Bool.not_false]),
    dropWhile_all_true (fun c hc => by simp only [h c hc, Bool.not_false])]

/-! ### Character-class facts -/

theorem schemeChar_facts {c : Char} (h : isSchemeChar c = true) :
    c.toNat ≠ 64 ∧ c.toNat ≠ 58 ∧ c.toNat ≠ 47 := by
  simp only [isSchemeChar, isSchemeStartChar, isDigitChar, Bool.or_eq_true,
    Bool.and_eq_true, decide_eq_true_eq] at h
  omega

theorem validScheme_mem {l : List Char} (h : validSchemeChars l = true) :
    ∀ c ∈ l, isSchemeChar c = true := by
  cases l with
  | nil => simp [validSchemeChars] at h
  | cons a rest =>
    simp only [validSchemeChars, Bool.and_eq_true] at h
    intro c hc
    rcases List.mem_cons.1 hc with rfl | hc
    · simp [isSchemeChar, h.1]
    · exact List.all_eq_true.1 h.2 c hc

theorem toLowerChar_schemeChar {c : Char} (h : isSchemeChar c = true) :
    isSchemeChar (toLowerChar c) = true := by
  rw [toLowerChar]
  by_cases hu : 65 ≤ c.toNat ∧ c.toNat ≤ 90
  · rw [if_pos hu]
    have htn : (Char.ofNat (c.toNat + 32)).toNat = c.toNat + 32 := by
      rw [toNatCharOfNat (by omega)]
    simp only [isSchemeChar, isSchemeStartChar, isDigitChar, Bool.or_eq_true,
      Bool.and_eq_true, decide_eq_true_eq, htn]
    omega
  · rw [if_neg hu]
    exact h

theorem userinfoChar_facts {c : Char} (h : isUserinfoChar c = true) :
    c.toNat ≠ 58 ∧ c.toNat ≠ 64 ∧ c.toNat ≠ 47 ∧ c.toNat ≠ 63 ∧
    c.toNat ≠ 35 := by
  simp only [isUserinfoChar, isUnreservedURI, isAsciiAlphanum,
    Bool.or_eq_true, Bool.and_eq_true, decide_eq_true_eq] at h
  omega

theorem hostChar_facts {c : Char} (h : isHostChar c = true) :
    c.toNat ≠ 58 ∧ c.toNat ≠ 64 ∧ c.toNat ≠ 47 ∧ c.toNat ≠ 63 ∧
    c.toNat ≠ 35 := by
  simp only [isHostChar, isDigitChar, Bool.or_eq_true, Bool.and_eq_true,
    decide_eq_true_eq] at h
  omega

theorem digitChar_facts {c : Char} (h : isDigitChar c = true) :
    c.toNat ≠ 58 ∧ c.toNat ≠ 64 ∧ c.toNat ≠ 47 ∧ c.toNat ≠ 63 ∧
    c.toNat ≠ 35 := by
  simp only [isDigitChar, Bool.and_eq_true, decide_eq_true_eq] at h
  omega

/-! ### Parse invariants -/

theorem mk_data (s : String) : String.mk s.data = s := by
  cases s
  rfl

theorem parsePort_le {x : Option (List Char)} {scheme : String}
    {po : Option Nat} (h : parsePort x scheme = some po) :
    ∀ p, po = some p → p ≤ 65535 := by
  intro p hp
  subst hp
  cases x with
  | none =>
    rw [parsePort] at h
    simp at h
  | some ds =>
    rw [parsePort] at h
    by_cases he : ds = []
    · rw [if_pos he] at h
      simp at h
    · rw [if_neg he] at h
      by_cases hd : ds.all isDigitChar
      · rw [if_pos hd] at h
        by_cases hgt : digitsVal ds > 65535
        · rw [if_pos hgt] at h
          exact absurd h (by simp)
        · rw [if_neg hgt] at h
          by_cases hdef : defaultSchemePort scheme = some (digitsVal ds)
          · rw [if_pos hdef] at h
            simp at h
          · rw [if_neg hdef] at h
            have hv := Option.some_inj.1 h
            have hv2 := Option.some_inj.1 hv
            omega
      · rw [if_neg hd] at h
        exact absurd h (by simp)

theorem parseHostPort_inv {scheme : String} {hostport : List Char}
    {hp : String × Option Nat}
    (h : parseHostPort scheme hostport = some hp) :
    (∀ c ∈ hp.1.data, isHostChar c = true) ∧
    (∀ p, hp.2 = some p → p ≤ 65535) := by
  rw [parseHostPort] at h
  by_cases hall : (hostPortSplit hostport).1.all isHostChar
  · rw [if_pos hall] at h
    by_cases hemp : (hostPortSplit hostport).1 = []
        ∧ specialSchemes.contains scheme
    · rw [if_pos hemp] at h
      exact absurd h (by simp)
    · rw [if_neg hemp] at h
      cases hpp : parsePort (hostPortSplit hostport).2 scheme with
      | none =>
        rw [hpp] at h
        exact absurd h (by simp)
      | some port =>
        rw [hpp] at h
        have heq : hp = (String.mk (hostPortSplit hostport).1, port) :=
          (Option.some_inj.1 h).symm
        subst heq
        constructor
        · intro c hc
          exact List.all_eq_true.1 hall c hc
        · intro p hpe
          exact parsePort_le hpp p hpe
  · rw [if_neg hall] at h
    exact absurd h (by simp)

theorem parseAuthority_inv {scheme : String} {afterSlashes : List Char}
    {u : URLRec} (h : parseAuthority scheme afterSlashes = some u) :
    u.scheme = scheme ∧ (∀ c ∈ u.host.data, isHostChar c = true) ∧
    (∀ p, u.port = some p → p ≤ 65535) := by
  rw [parseAuthority] at h
  cases hui : parseUserinfo
      ((authoritySplit
        (takeUntilStops ['/', '?', '#'] afterSlashes).1).1.getD []) with
  | none =>
    rw [hui] at h
    exact absurd h (by simp)
  | some up =>
    rw [hui] at h
    cases hhp : parseHostPort scheme
        (authoritySplit (takeUntilStops ['/', '?', '#'] afterSlashes).1).2 with
    | none =>
      rw [hhp] at h
      exact absurd h (by simp)
    | some hp =>
      rw [hhp] at h
      have heq : u = ⟨scheme, String.mk up.1, String.mk up.2, hp.1, hp.2,
          String.mk (takeUntilStops ['/', '?', '#'] afterSlashes).2⟩ :=
        (Option.some_inj.1 h).symm
      obtain ⟨h1, h2⟩ := parseHostPort_inv hhp
      subst heq
      exact ⟨rfl, h1, h2⟩

theorem parseURL_inv {s : String} {u : URLRec} (h : parseURL s = some u) :
    (∀ c ∈ u.scheme.data, isSchemeChar c = true) ∧
    (∀ c ∈ u.host.data, isHostChar c = true) ∧
    (∀ p, u.port = some p → p ≤ 65535) := by
  rw [parseURL] at h
  cases hsp : splitFirstChar ':' s.data with
  | none =>
    rw [hsp] at h
    exact absurd h (by simp)
  | some pr =>
    obtain ⟨schemeRaw, rest⟩ := pr
    rw [hsp] at h
    dsimp only at h
    by_cases hv : validSchemeChars schemeRaw
    · rw [if_pos hv] at h
      split at h
      · have hinv := parseAuthority_inv h
        refine ⟨?_, hinv.2.1, hinv.2.2⟩
        intro c hc
        rw [hinv.1] at hc
        obtain ⟨c0, hc0, hc0e⟩ := List.mem_map.1 hc
        rw [← hc0e]
        exact toLowerChar_schemeChar (validScheme_mem hv c0 hc0)
      · exact absurd h (by simp)
    · rw [if_neg hv] at h
      exact absurd h (by simp)

/-! ### Shape lemmas: parsing a proxy-shaped URL string -/

theorem userinfoSplit_no_colon {uc : List Char} (h : ':' ∉ uc) :
    userinfoSplit uc = (uc, []) := by
  rw [userinfoSplit, splitFirstChar_eq_none h]

theorem userinfoSplit_with_colon {uc pc : List Char} (h : ':' ∉ uc) :
    userinfoSplit (uc ++ ':' :: pc) = (uc, pc) := by
  rw [userinfoSplit, splitFirstChar_append pc h]

theorem parseUserinfo_nil : parseUserinfo [] = some ([], []) := by
  decide

theorem parseUserinfo_no_colon {uc : List Char}
    (hat : '@' ∉ uc) (hcol : ':' ∉ uc)
    (hall : ∀ c ∈ uc, isUserinfoChar c = true) :
    parseUserinfo uc = some (uc, []) := by
  rw [parseUserinfo, if_neg (by simpa using hat),
    userinfoSplit_no_colon hcol,
    if_pos (by simp [List.all_eq_true.2 hall])]

theorem parseUserinfo_with_colon {uc pc : List Char}
    (hatu : '@' ∉ uc) (hatp : '@' ∉ pc) (hcol : ':' ∉ uc)
    (halluc : ∀ c ∈ uc, isUserinfoChar c = true)
    (hallpc : ∀ c ∈ pc, isUserinfoChar c = true) :
    parseUserinfo (uc ++ ':' :: pc) = some (uc, pc) := by
  have hat : '@' ∉ uc ++ ':' :: pc := by
    intro hm
    rcases List.mem_append.1 hm with hm | hm
    · exact hatu hm
    · rcases List.mem_cons.1 hm with hm | hm
      · exact absurd hm (by decide)
      · exact hatp hm
  rw [parseUserinfo, if_neg (by simpa using hat),
    userinfoSplit_with_colon hcol,
    if_pos (by simp [List.all_eq_true.2 halluc, List.all_eq_true.2 hallpc])]

theorem parsePort_digits {scheme : String} {port : Nat} (hle : port ≤ 65535) :
    parsePort (some (natDigits port)) scheme
      = some (if defaultSchemePort scheme = some port then none
          else some port) := by
  rw [parsePort, if_neg (natDigits_ne_nil port),
    if_pos (List.all_eq_true.2 (natDigits_all_digit port)),
    digitsVal_natDigits, if_neg (by omega)]
  by_cases hdef : defaultSchemePort scheme = some port
  · rw [if_pos hdef, if_pos hdef]
  · rw [if_neg hdef, if_neg hdef]

theorem hostPortSplit_append {host ds : List Char} (h : ':' ∉ host) :
    hostPortSplit (host ++ ':' :: ds) = (host, some ds) := by
  rw [hostPortSplit, splitFirstChar_append ds h]

theorem parseHostPort_shape {scheme : String} {host : String} {port : Nat}
    (hhc : ∀ c ∈ host.data, isHostChar c = true)
    (hne : host.data = [] → specialSchemes.contains scheme = false)
    (hle : port ≤ 65535) :
    parseHostPort scheme (host.data ++ ':' :: natDigits port)
      = some (host, if defaultSchemePort scheme = some port then none
          else some port) := by
  have hcol : ':' ∉ host.data :=
    not_mem_of_toNat_ne (fun c hc => (hostChar_facts (hhc c hc)).1)
  rw [parseHostPort, hostPortSplit_append hcol]
  rw [if_pos (List.all_eq_true.2 hhc)]
  rw [if_neg (by
    rintro ⟨h1, h2⟩
    rw [hne h1] at h2
    exact absurd h2 (by simp))]
  rw [parsePort_digits hle, mk_data]

theorem authoritySplit_nocreds {auth : List Char} (h : '@' ∉ auth) :
    authoritySplit auth = (none, auth) := by
  rw [authoritySplit, splitLastChar_eq_none h]

theorem authoritySplit_creds {pre hp : List Char}
    (h1 : '@' ∉ pre) (h2 : '@' ∉ hp) :
    authoritySplit (pre ++ '@' :: hp) = (some pre, hp) := by
  rw [authoritySplit, splitLastChar_append h1 h2]

theorem stops_contains_false_of_toNat {c : Char}
    (h47 : c.toNat ≠ 47) (h63 : c.toNat ≠ 63) (h35 : c.toNat ≠ 35) :
    (['/', '?', '#'] : List Char).contains c = false := by
  apply contains_eq_false_of_not_mem
  intro hm
  simp only [List.mem_cons, List.not_mem_nil, or_false] at hm
  rcases hm with hm | hm | hm
  · exact h47 (by rw [hm]; decide)
  · exact h63 (by rw [hm]; decide)
  · exact h35 (by rw [hm]; decide)

theorem hostport_char_facts {host : String} {port : Nat}
    (hhc : ∀ c ∈ host.data, isHostChar c = true) :
    ∀ c ∈ host.data ++ ':' :: natDigits port,
      c.toNat ≠ 64 ∧ c.toNat ≠ 47 ∧ c.toNat ≠ 63 ∧ c.toNat ≠ 35 := by
  intro c hc
  rcases List.mem_append.1 hc with hc | hc
  · have := hostChar_facts (hhc c hc)
    exact ⟨this.2.1, this.2.2.1, this.2.2.2.1, this.2.2.2.2⟩
  · rcases List.mem_cons.1 hc with rfl | hc
    · refine ⟨by decide, by decide, by decide, by decide⟩
    · have := digitChar_facts (natDigits_all_digit port c hc)
      exact ⟨this.2.1, this.2.2.1, this.2.2.2.1, this.2.2.2.2⟩

theorem credsData_char_facts {uc : List Char} {pcOpt : Option (List Char)}
    (hallu : ∀ c ∈ uc, isUserinfoChar c = true)
    (hallp : ∀ pc, pcOpt = some pc → ∀ c ∈ pc, isUserinfoChar c = true) :
    ∀ c ∈ credsData uc pcOpt,
      c.toNat ≠ 64 ∧ c.toNat ≠ 47 ∧ c.toNat ≠ 63 ∧ c.toNat ≠ 35 := by
  intro c hc
  have hui : isUserinfoChar c = true ∨ c.toNat = 58 := by
    cases hpc : pcOpt with
    | none =>
      rw [hpc] at hc
      simp only [credsData] at hc
      exact Or.inl (hallu c hc)
    | some pc =>
      rw [hpc] at hc
      simp only [credsData] at hc
      rcases List.mem_append.1 hc with hc | hc
      · exact Or.inl (hallu c hc)
      · rcases List.mem_cons.1 hc with rfl | hc
        · exact Or.inr (by decide)
        · exact Or.inl (hallp pc hpc c hc)
  rcases hui with hui | hui
  · have := userinfoChar_facts hui
    exact ⟨this.2.1, this.2.2.1, this.2.2.2.1, this.2.2.2.2⟩
  · omega

/-- Parsing the authority `host:port` of a credential-free proxy URL. -/
theorem parseAuthority_shape_nocreds {scheme host : String} {port : Nat}
    (hhc : ∀ c ∈ host.data, isHostChar c = true)
    (hne : host.data = [] → specialSchemes.contains scheme = false)
    (hle : port ≤ 65535) :
    parseAuthority scheme (host.data ++ ':' :: natDigits port)
      = some ⟨scheme, "", "", host,
          (if defaultSchemePort scheme = some port then none else some port),
          ""⟩ := by
  have hstops : ∀ c ∈ host.data ++ ':' :: natDigits port,
      (['/', '?', '#'] : List Char).contains c = false := by
    intro c hc
    have h := hostport_char_facts hhc c hc
    exact stops_contains_false_of_toNat h.2.1 h.2.2.1 h.2.2.2
  have hat : '@' ∉ host.data ++ ':' :: natDigits port :=
    not_mem_of_toNat_ne (fun c hc => (hostport_char_facts hhc c hc).1)
  rw [parseAuthority, takeUntilStops_all hstops]
  dsimp only
  rw [authoritySplit_nocreds hat]
  dsimp only [Option.getD_none]
  rw [parseUserinfo_nil]
  dsimp only
  rw [parseHostPort_shape hhc hne hle]

/-- Parsing the authority `userinfo@host:port` of a proxy URL carrying
credentials (`pcOpt = none` means no `:password` segment). -/
theorem parseAuthority_shape_creds {scheme host : String} {port : Nat}
    (uc : List Char) (pcOpt : Option (List Char))
    (hallu : ∀ c ∈ uc, isUserinfoChar c = true)
    (hallp : ∀ pc, pcOpt = some pc → ∀ c ∈ pc, isUserinfoChar c = true)
    (hhc : ∀ c ∈ host.data, isHostChar c = true)
    (hne : host.data = [] → specialSchemes.contains scheme = false)
    (hle : port ≤ 65535) :
    parseAuthority scheme
        (credsData uc pcOpt ++ '@' :: (host.data ++ ':' :: natDigits port))
      = some ⟨scheme, String.mk uc, String.mk (pcOpt.getD []), host,
          (if defaultSchemePort scheme = some port then none else some port),
          ""⟩ := by
  have hu_at : '@' ∉ uc :=
    not_mem_of_toNat_ne (fun c hc => (userinfoChar_facts (hallu c hc)).2.1)
  have hu_col : ':' ∉ uc :=
    not_mem_of_toNat_ne (fun c hc => (userinfoChar_facts (hallu c hc)).1)
  have hcreds_at : '@' ∉ credsData uc pcOpt :=
    not_mem_of_toNat_ne
      (fun c hc => (credsData_char_facts hallu hallp c hc).1)
  have hhp_at : '@' ∉ host.data ++ ':' :: natDigits port :=
    not_mem_of_toNat_ne (fun c hc => (hostport_char_facts hhc c hc).1)
  have hstops : ∀ c ∈ credsData uc pcOpt ++ '@' ::
      (host.data ++ ':' :: natDigits port),
      (['/', '?', '#'] : List Char).contains c = false := by
    intro c hc
    rcases List.mem_append.1 hc with hc | hc
    · have h := credsData_char_facts hallu hallp c hc
      exact stops_contains_false_of_toNat h.2.1 h.2.2.1 h.2.2.2
    · rcases List.mem_cons.1 hc with rfl | hc
      · decide
      · have h := hostport_char_facts hhc c hc
        exact stops_contains_false_of_toNat h.2.1 h.2.2.1 h.2.2.2
  rw [parseAuthority, takeUntilStops_all hstops]
  dsimp only
  rw [authoritySplit_creds hcreds_at hhp_at]
  dsimp only [Option.getD_some]
  cases hpc : pcOpt with
  | none =>
    have hcd : credsData uc none = uc := rfl
    rw [hcd, parseUserinfo_no_colon hu_at hu_col hallu]
    dsimp only
    rw [parseHostPort_shape hhc hne hle]
    rfl
  | some pc =>
    have hp_at : '@' ∉ pc :=
      not_mem_of_toNat_ne
        (fun c hc => (userinfoChar_facts (hallp pc hpc c hc)).2.1)
    have hcd : credsData uc (some pc) = uc ++ ':' :: pc := rfl
    rw [hcd, parseUserinfo_with_colon hu_at hp_at hu_col hallu (hallp pc hpc)]
    dsimp only
    rw [parseHostPort_shape hhc hne hle]
    rfl

/-- Parsing `scheme://tail` for a lowercase well-formed scheme reduces to
parsing the part after the slashes as an authority. -/
theorem parseURL_shape {scheme : String} (afterSlashes : List Char)
    (hvs : validSchemeChars scheme.data = true)
    (hlow : scheme.data.map toLowerChar = scheme.data) :
    parseURL (scheme ++ "://" ++ String.mk afterSlashes)
      = parseAuthority scheme afterSlashes := by
  have hcol : ':' ∉ scheme.data := by
    intro hmem
    exact (schemeChar_facts (validScheme_mem hvs ':' hmem)).2.1 rfl
  have hdata : (scheme ++ "://" ++ String.mk afterSlashes).data
      = scheme.data ++ ':' :: '/' :: '/' :: afterSlashes := by
    rw [String.data_append, String.data_append, List.append_assoc]
    rfl
  rw [parseURL, hdata, splitFirstChar_append _ hcol]
  dsimp only
  rw [if_pos hvs, hlow, mk_data]
  rfl

/-! ### `encodeURIComponent` / `decodeURIComponent` round-trip -/

theorem strData_inj {s t : String} (h : s.data = t.data) : s = t := by
  cases s; cases t; exact congrArg String.mk h

theorem hexVal_hexDigitChar {n : Nat} (h : n < 16) :
    hexVal (hexDigitChar n) = some n := by
  interval_cases n <;> decide

theorem hexDigitChar_userinfo {n : Nat} (h : n < 16) :
    isUserinfoChar (hexDigitChar n) = true := by
  interval_cases n <;> decide

theorem charOfNat_toNat {c : Char} (h : c.toNat < 55296) :
    Char.ofNat c.toNat = c :=
  charToNatInj (toNatCharOfNat h)

theorem unreserved_ne_37 {c : Char} (h : isUnreservedURI c = true) :
    c.toNat ≠ 37 := by
  simp only [isUnreservedURI, isAsciiAlphanum, Bool.or_eq_true,
    Bool.and_eq_true, decide_eq_true_eq] at h
  omega

theorem encodeChar_ne_nil (c : Char) : encodeChar c ≠ [] := by
  rw [encodeChar]
  by_cases h : isUnreservedURI c
  · rw [if_pos h]; exact List.cons_ne_nil _ _
  · rw [if_neg h]; exact List.cons_ne_nil _ _

theorem encodeChar_userinfo (c : Char) :
    ∀ d ∈ encodeChar c, isUserinfoChar d = true := by
  intro d hd
  rw [encodeChar] at hd
  by_cases h : isUnreservedURI c
  · rw [if_pos h] at hd
    rcases List.mem_singleton.1 hd with rfl
    simp only [isUserinfoChar, h, Bool.true_or]
  · rw [if_neg h] at hd
    rcases List.mem_cons.1 hd with rfl | hd
    · decide
    rcases List.mem_cons.1 hd with rfl | hd
    · exact hexDigitChar_userinfo (Nat.mod_lt _ (by omega))
    rcases List.mem_cons.1 hd with rfl | hd
    · exact hexDigitChar_userinfo (Nat.mod_lt _ (by omega))
    · exact absurd hd (List.not_mem_nil d)

theorem encode_all_userinfo (s : String) :
    ∀ d ∈ (encodeURIComponent s).data, isUserinfoChar d = true := by
  intro d hd
  simp only [encodeURIComponent] at hd
  rcases List.mem_flatten.1 hd with ⟨l, hl, hdl⟩
  rcases List.mem_map.1 hl with ⟨c, _, rfl⟩
  exact encodeChar_userinfo c d hdl

theorem encode_ne_empty {s : String} (h : s ≠ "") :
    encodeURIComponent s ≠ "" := by
  intro he
  apply h
  rw [encodeURIComponent, mk_eq_empty_iff] at he
  cases hs : s.data with
  | nil => exact strData_inj (by rw [hs])
  | cons c rest =>
    rw [hs] at he
    simp only [List.map_cons, List.flatten_cons,
      List.append_eq_nil] at he
    exact absurd he.1 (encodeChar_ne_nil c)

theorem decodePercent_flatten_encode :
    ∀ {l : List Char}, (∀ c ∈ l, c.toNat < 128) →
      decodePercent (l.map encodeChar).flatten = l := by
  intro l
  induction l with
  | nil =>
    intro _
    rw [List.map_nil, List.flatten_nil, decodePercent.eq_def]
  | cons c rest ih =>
    intro h
    have hc : c.toNat < 128 := h c (List.mem_cons_self c rest)
    have hrest : ∀ x ∈ rest, x.toNat < 128 :=
      fun x hx => h x (List.mem_cons_of_mem c hx)
    rw [List.map_cons, List.flatten_cons, encodeChar]
    by_cases hu : isUnreservedURI c
    · rw [if_pos hu, List.cons_append, List.nil_append, decodePercent.eq_def]
      dsimp only
      rw [if_neg (unreserved_ne_37 hu), ih hrest]
    · rw [if_neg hu]
      have h37 : (Char.ofNat 37).toNat = 37 := by decide
      rw [List.cons_append, List.cons_append, List.cons_append,
        List.nil_append, decodePercent.eq_def]
      dsimp only
      rw [if_pos h37]
      rw [hexVal_hexDigitChar (Nat.mod_lt _ (by omega)),
        hexVal_hexDigitChar (Nat.mod_lt _ (by omega))]
      dsimp only
      have harith : 16 * (c.toNat / 16 % 16) + c.toNat % 16 = c.toNat := by
        omega
      rw [harith, charOfNat_toNat (by omega), ih hrest]

theorem decode_encode {s : String} (h : ∀ c ∈ s.data, c.toNat < 128) :
    decodeURIComponent (encodeURIComponent s) = s := by
  rw [decodeURIComponent, encodeURIComponent]
  exact strData_inj (by rw [decodePercent_flatten_encode h])

/-! ### String and list plumbing for the footnote theorems -/

theorem append_left_cancel_str {p a b : String} (h : p ++ a = p ++ b) :
    a = b := by
  apply strData_inj
  have h2 := congrArg String.data h
  rw [String.data_append, String.data_append] at h2
  exact List.append_cancel_left h2

theorem isPrefixList_append_self (p t : List Char) :
    isPrefixList p (p ++ t) = true := by
  induction p with
  | nil => rfl
  | cons a as ih => simp [isPrefixList, ih]

theorem isPrefixList_str_append (p i : String) :
    isPrefixList p.data (p ++ i).data = true := by
  rw [String.data_append]
  exact isPrefixList_append_self _ _

theorem contains_false_not_mem {l : List String} {a : String}
    (h : l.contains a = false) : a ∉ l := by
  intro hmem
  rw [show l.contains a = l.elem a from rfl, List.elem_eq_mem] at h
  simp at h
  exact h hmem

/-! ### mapAccum and conversion-step lemmas -/

theorem mapAccum_mem
    {f : List String × Nat → HNode → HNode × (List String × Nat)} :
    ∀ {l : List HNode} {s : List String × Nat} {n : HNode},
      n ∈ (mapAccum f l s).1 → ∃ n0 s0, n0 ∈ l ∧ n = (f s0 n0).1 := by
  intro l
  induction l with
  | nil =>
    intro s n h
    simp [mapAccum] at h
  | cons a rest ih =>
    intro s n h
    simp only [mapAccum, List.mem_cons] at h
    rcases h with h | h
    · exact ⟨a, s, List.mem_cons_self a rest, h⟩
    · obtain ⟨n0, s0, hmem, hn⟩ := ih h
      exact ⟨n0, s0, List.mem_cons_of_mem a hmem, hn⟩

theorem mapAccum_state
    {f : List String × Nat → HNode → HNode × (List String × Nat)}
    (P : List String × Nat → Prop)
    (hf : ∀ s n, P s → P (f s n).2) :
    ∀ (l : List HNode) (s : List String × Nat), P s → P ((mapAccum f l s).2) := by
  intro l
  induction l with
  | nil => intro s h; exact h
  | cons a rest ih =>
    intro s h
    exact ih (f s a).2 (hf s a h)

theorem markerStep_fst_asideId (m : List (String × String)) (slug : String)
    (s : List String × Nat) (n : HNode) (h : n.asideId? = none) :
    ((markerStep m slug s n).1).asideId? = none := by
  cases n with
  | marker pre id =>
    simp only [markerStep]
    by_cases hm : (lookupStr m id).isSome
    · rw [if_pos hm]
      cases pre <;> rfl
    · rw [if_neg hm]; exact h
  | text a => exact h
  | anchorRef a b => exact h
  | noteDiv a b => exact h
  | noteReg => exact h
  | noteref a b => exact h
  | aside a b c => exact h

theorem anchorStep_fst_asideId (m : List (String × String)) (slug : String)
    (s : List String × Nat) (n : HNode) (h : n.asideId? = none) :
    ((anchorStep m slug s n).1).asideId? = none := by
  cases n with
  | anchorRef id txt =>
    simp only [anchorStep]
    by_cases hm : (lookupStr m id).isSome
    · rw [if_pos hm]
      by_cases ht : trimStr txt ≠ ""
      · rw [if_pos ht]; rfl
      · rw [if_neg ht]; rfl
    · rw [if_neg hm]; exact h
  | text a => exact h
  | marker a b => exact h
  | noteDiv a b => exact h
  | noteReg => exact h
  | noteref a b => exact h
  | aside a b c => exact h

theorem markerStep_fst_frag (m : List (String × String)) (slug : String)
    (s : List String × Nat) (n : HNode) :
    ((markerStep m slug s n).1).noterefFrag? = n.noterefFrag? ∨
    ∃ id, ((markerStep m slug s n).1).noterefFrag? = some (slug ++ "_" ++ id) := by
  cases n with
  | marker pre id =>
    by_cases hm : (lookupStr m id).isSome
    · right
      refine ⟨id, ?_⟩
      simp only [markerStep]
      rw [if_pos hm]
      cases pre <;> rfl
    · left
      simp only [markerStep]
      rw [if_neg hm]
  | text a => left; rfl
  | anchorRef a b => left; rfl
  | noteDiv a b => left; rfl
  | noteReg => left; rfl
  | noteref a b => left; rfl
  | aside a b c => left; rfl

theorem anchorStep_fst_frag (m : List (String × String)) (slug : String)
    (s : List String × Nat) (n : HNode) :
    ((anchorStep m slug s n).1).noterefFrag? = n.noterefFrag? ∨
    ∃ id, ((anchorStep m slug s n).1).noterefFrag? = some (slug ++ "_" ++ id) := by
  cases n with
  | anchorRef id txt =>
    by_cases hm : (lookupStr m id).isSome
    · right
      refine ⟨id, ?_⟩
      simp only [anchorStep]
      rw [if_pos hm]
      by_cases ht : trimStr txt ≠ ""
      · rw [if_pos ht]; rfl
      · rw [if_neg ht]; rfl
    · left
      simp only [anchorStep]
      rw [if_neg hm]
  | text a => left; rfl
  | marker a b => left; rfl
  | noteDiv a b => left; rfl
  | noteReg => left; rfl
  | noteref a b => left; rfl
  | aside a b c => left; rfl

theorem usedExtend_nodup {used : List String} {id : String} (h : used.Nodup) :
    (if used.contains id then used else used ++ [id]).Nodup := by
  by_cases hc : used.contains id
  · rw [if_pos hc]; exact h
  · rw [if_neg hc]
    rw [List.nodup_append]
    refine ⟨h, List.nodup_singleton id, ?_⟩
    intro x hx hx1
    simp at hx1
    subst hx1
    exact contains_false_not_mem (Bool.not_eq_true _ ▸ hc) hx

theorem markerStep_used_nodup (m : List (String × String)) (slug : String)
    (s : List String × Nat) (n : HNode) (h : s.1.Nodup) :
    ((markerStep m slug s n).2).1.Nodup := by
  cases n with
  | marker pre id =>
    simp only [markerStep]
    by_cases hm : (lookupStr m id).isSome
    · rw [if_pos hm]
      cases pre
      · exact usedExtend_nodup h
      · exact usedExtend_nodup h
    · rw [if_neg hm]; exact h
  | text a => exact h
  | anchorRef a b => exact h
  | noteDiv a b => exact h
  | noteReg => exact h
  | noteref a b => exact h
  | aside a b c => exact h

theorem anchorStep_used_nodup (m : List (String × String)) (slug : String)
    (s : List String × Nat) (n : HNode) (h : s.1.Nodup) :
    ((anchorStep m slug s n).2).1.Nodup := by
  cases n with
  | anchorRef id txt =>
    simp only [anchorStep]
    by_cases hm : (lookupStr m id).isSome
    · rw [if_pos hm]
      by_cases ht : trimStr txt ≠ ""
      · rw [if_pos ht]; exact usedExtend_nodup h
      · rw [if_neg ht]; exact usedExtend_nodup h
    · rw [if_neg hm]; exact h
  | text a => exact h
  | marker a b => exact h
  | noteDiv a b => exact h
  | noteReg => exact h
  | noteref a b => exact h
  | aside a b c => exact h

/-! ### Footnote-map key lemmas -/

theorem mem_keys_mapSet {m : List (String × String)} {k v x : String} :
    x ∈ (mapSet m k v).map Prod.fst ↔ x ∈ m.map Prod.fst ∨ x = k := by
  induction m with
  | nil => simp [mapSet]
  | cons e rest ih =>
    obtain ⟨k1, v1⟩ := e
    simp only [mapSet]
    by_cases hk : k1 = k
    · rw [if_pos hk]
      subst hk
      simp
      tauto
    · rw [if_neg hk]
      simp [ih]
      tauto

theorem keys_nodup_mapSet {m : List (String × String)} {k v : String}
    (h : (m.map Prod.fst).Nodup) : ((mapSet m k v).map Prod.fst).Nodup := by
  induction m with
  | nil => simp [mapSet]
  | cons e rest ih =>
    obtain ⟨k1, v1⟩ := e
    simp only [mapSet]
    by_cases hk : k1 = k
    · rw [if_pos hk]
      simpa using h
    · rw [if_neg hk]
      simp only [List.map_cons, List.nodup_cons] at h ⊢
      refine ⟨?_, ih h.2⟩
      intro hmem
      rcases mem_keys_mapSet.1 hmem with h1 | h1
      · exact h.1 h1
      · exact hk h1

theorem extractFootnoteMap_keys_nodup (html : List HNode) :
    ((extractFootnoteMap html).map Prod.fst).Nodup := by
  have main : ∀ (l : List HNode) (m : List (String × String)),
      (m.map Prod.fst).Nodup →
      ((l.foldl
        (fun m n =>
          match n with
          | .noteDiv id content =>
            if isNoteId id ∧ trimStr content ≠ "" then
              mapSet m id (trimStr content)
            else m
          | _ => m) m).map Prod.fst).Nodup := by
    intro l
    induction l with
    | nil => intro m hm; exact hm
    | cons n rest ih =>
      intro m hm
      rw [List.foldl_cons]
      apply ih
      cases n with
      | noteDiv id content =>
        dsimp only
        by_cases hc : isNoteId id ∧ trimStr content ≠ ""
        · rw [if_pos hc]; exact keys_nodup_mapSet hm
        · rw [if_neg hc]; exact hm
      | text a => exact hm
      | marker a b => exact hm
      | anchorRef a b => exact hm
      | noteReg => exact hm
      | noteref a b => exact hm
      | aside a b c => exact hm
  exact main html [] (by simp)

/-! ### Characterization of `generateFootnoteAsides` -/

theorem usedAsideBlocks_eq (footnoteMap : List (String × String))
    (slug : String) (usedNotes : List String) :
    usedAsideBlocks footnoteMap slug usedNotes
      = (usedNotes.filter
          (fun id => ((lookupStr footnoteMap id).getD "") ≠ "")).map
        (fun id => HNode.aside (slug ++ "_" ++ id) "Ghi chú"
          ((lookupStr footnoteMap id).getD "")) := by
  induction usedNotes with
  | nil => rfl
  | cons id rest ih =>
    cases hl : lookupStr footnoteMap id with
    | none =>
      simp only [usedAsideBlocks, hl, List.filter_cons]
      simp only [hl, Option.getD_none]
      rw [if_neg (by simp)]
      exact ih
    | some c =>
      by_cases hc : c ≠ ""
      · simp only [usedAsideBlocks, hl, List.filter_cons]
        rw [if_pos hc]
        have hpred : (decide (((some c : Option String).getD "") ≠ ""))
            = true := by
          simp [hc]
        rw [if_pos hpred, List.map_cons, ih, hl, Option.getD_some]
      · simp only [usedAsideBlocks, hl, List.filter_cons]
        rw [if_neg hc]
        have hceq : c = "" := not_ne_iff.mp hc
        rw [if_neg (by simp [hceq])]
        exact ih

theorem unusedAsideBlocks_eq (usedNotes : List String) (slug : String)
    (footnoteMap : List (String × String)) :
    unusedAsideBlocks usedNotes slug footnoteMap
      = (footnoteMap.filter (fun e => !usedNotes.contains e.1)).map
        (fun e => HNode.aside (slug ++ "_" ++ e.1) "Ghi chú (Thêm)" e.2) := by
  induction footnoteMap with
  | nil => rfl
  | cons e rest ih =>
    obtain ⟨id, content⟩ := e
    by_cases hc : usedNotes.contains id
    · simp only [unusedAsideBlocks, List.filter_cons]
      rw [if_pos hc]
      simp only [hc, Bool.not_true]
      rw [if_neg (by simp)]
      exact ih
    · simp only [unusedAsideBlocks, List.filter_cons]
      rw [if_neg hc]
      have hc2 : usedNotes.contains id = false := Bool.not_eq_true _ ▸ hc
      simp only [hc2, Bool.not_false]
      rw [if_pos trivial]
      rw [List.map_cons, ih]

theorem genAsides_characterization (usedNotes : List String)
    (footnoteMap : List (String × String)) (chapterSlug : String)
    (includeUnused : Bool) :
    generateFootnoteAsides usedNotes footnoteMap chapterSlug includeUnused
      = (usedNotes.filter
            (fun id => ((lookupStr footnoteMap id).getD "") ≠ "")).map
          (fun id => HNode.aside (chapterSlug ++ "_" ++ id) "Ghi chú"
            ((lookupStr footnoteMap id).getD ""))
        ++ (if includeUnused then
            (footnoteMap.filter (fun e => !usedNotes.contains e.1)).map
              (fun e => HNode.aside (chapterSlug ++ "_" ++ e.1)
                "Ghi chú (Thêm)" e.2)
          else []) := by
  rw [generateFootnoteAsides, usedAsideBlocks_eq]
  cases includeUnused with
  | false => rfl
  | true =>
    rw [if_pos rfl, if_pos rfl, unusedAsideBlocks_eq]

/-! ### Generated asides are exactly the mapped used ids then the unused
map entries (claim C10) -/

/-- C10: `generateFootnoteAsides` emits asides exactly for the entries of
`used` whose map content is present and non-empty — one aside each, in
`used` order (ids absent from the map or mapped to empty content
contribute nothing) — followed, when `includeUnused` is set, by one aside
per remaining map entry in map insertion order. -/
theorem generateFootnoteAsides_spec (usedNotes : List String)
    (footnoteMap : List (String × String)) (chapterSlug : String)
    (includeUnused : Bool) :
    generateFootnoteAsides usedNotes footnoteMap chapterSlug includeUnused
      = (usedNotes.filter
            (fun id => ((lookupStr footnoteMap id).getD "") ≠ "")).map
          (fun id => HNode.aside (chapterSlug ++ "_" ++ id) "Ghi chú"
            ((lookupStr footnoteMap id).getD ""))
        ++ (if includeUnused then
            (footnoteMap.filter (fun e => !usedNotes.contains e.1)).map
              (fun e => HNode.aside (chapterSlug ++ "_" ++ e.1)
                "Ghi chú (Thêm)" e.2)
          else []) :=
  genAsides_characterization usedNotes footnoteMap chapterSlug includeUnused

/-! ### Conversion-pass corollaries and the footnote invariant -/

theorem asideIds_map_aside {α : Type} (g hd cn : α → String) (l : List α) :
    asideIds (l.map (fun x => HNode.aside (g x) (hd x) (cn x))) = l.map g := by
  induction l with
  | nil => rfl
  | cons a rest ih =>
    simp only [List.map_cons, asideIds, List.filterMap_cons, HNode.asideId?]
      at ih ⊢
    rw [ih]

theorem noterefFrags_map_aside {α : Type} (g hd cn : α → String) (l : List α) :
    noterefFrags (l.map (fun x => HNode.aside (g x) (hd x) (cn x))) = [] := by
  induction l with
  | nil => rfl
  | cons a rest ih =>
    simp only [List.map_cons, noterefFrags, List.filterMap_cons,
      HNode.noterefFrag?] at ih ⊢
    exact ih

theorem convert_no_aside (html : List HNode)
    (fm : List (String × String)) (slug : String)
    (h : ∀ n ∈ html, n.asideId? = none) :
    ∀ n ∈ (convertFootnoteMarkers html fm slug).1, n.asideId? = none := by
  intro n hn
  have hn2 : n ∈ (mapAccum (anchorStep fm slug)
      (mapAccum (markerStep fm slug) html ([], 1)).1
      (mapAccum (markerStep fm slug) html ([], 1)).2).1 := hn
  obtain ⟨n1, s1, hmem1, hn1⟩ := mapAccum_mem hn2
  obtain ⟨n0, s0, hmem0, hn0⟩ := mapAccum_mem hmem1
  rw [hn1, hn0]
  exact anchorStep_fst_asideId _ _ _ _
    (markerStep_fst_asideId _ _ _ _ (h n0 hmem0))

theorem convert_frag_prefixed (html : List HNode)
    (fm : List (String × String)) (slug : String)
    (h : ∀ n ∈ html, n.noterefFrag? = none) :
    ∀ f ∈ noterefFrags (convertFootnoteMarkers html fm slug).1,
      ∃ id, f = slug ++ "_" ++ id := by
  intro f hf
  rw [noterefFrags, List.mem_filterMap] at hf
  obtain ⟨n, hn, hfrag⟩ := hf
  have hn2 : n ∈ (mapAccum (anchorStep fm slug)
      (mapAccum (markerStep fm slug) html ([], 1)).1
      (mapAccum (markerStep fm slug) html ([], 1)).2).1 := hn
  obtain ⟨n1, s1, hmem1, hn1⟩ := mapAccum_mem hn2
  rw [hn1] at hfrag
  rcases anchorStep_fst_frag fm slug s1 n1 with he | ⟨id, he⟩
  · rw [he] at hfrag
    obtain ⟨n0, s0, hmem0, hn0⟩ := mapAccum_mem hmem1
    rw [hn0] at hfrag
    rcases markerStep_fst_frag fm slug s0 n0 with he0 | ⟨id0, he0⟩
    · rw [he0, h n0 hmem0] at hfrag
      exact absurd hfrag (by simp)
    · rw [he0] at hfrag
      exact ⟨id0, (Option.some_inj.1 hfrag).symm⟩
  · rw [he] at hfrag
    exact ⟨id, (Option.some_inj.1 hfrag).symm⟩

theorem convert_used_nodup (html : List HNode)
    (fm : List (String × String)) (slug : String) :
    (convertFootnoteMarkers html fm slug).2.Nodup := by
  have h1 : ((mapAccum (markerStep fm slug) html ([], 1)).2).1.Nodup :=
    mapAccum_state (fun s => s.1.Nodup)
      (fun s n hs => markerStep_used_nodup fm slug s n hs)
      html ([], 1) List.nodup_nil
  exact mapAccum_state (fun s => s.1.Nodup)
    (fun s n hs => anchorStep_used_nodup fm slug s n hs)
    (mapAccum (markerStep fm slug) html ([], 1)).1
    (mapAccum (markerStep fm slug) html ([], 1)).2 h1

/-- C1: for every input fragment (raw chapter HTML: no pre-existing aside
or noteref nodes) and every slug, in the output of `processFootnotes`
(marker conversion composed with aside generation) every emitted aside id
and every emitted noteref href fragment starts with `<slug>_`, and the
aside ids are duplicate-free. -/
theorem processFootnotes_scoping_unique (html : List HNode)
    (chapterSlug : String)
    (hA : ∀ n ∈ html, n.asideId? = none)
    (hR : ∀ n ∈ html, n.noterefFrag? = none) :
    (∀ i ∈ asideIds (processFootnotes html chapterSlug),
        isPrefixList (chapterSlug ++ "_").data i.data = true) ∧
    (∀ f ∈ noterefFrags (processFootnotes html chapterSlug),
        isPrefixList (chapterSlug ++ "_").data f.data = true) ∧
    (asideIds (processFootnotes html chapterSlug)).Nodup := by
  have hA1 : ∀ n ∈ stripNoteDefs html, n.asideId? = none :=
    fun n hn => hA n (List.mem_of_mem_filter hn)
  have hR1 : ∀ n ∈ stripNoteDefs html, n.noterefFrag? = none :=
    fun n hn => hR n (List.mem_of_mem_filter hn)
  have hnoAside := convert_no_aside (stripNoteDefs html)
    (extractFootnoteMap html) chapterSlug hA1
  have hfragPre := convert_frag_prefixed (stripNoteDefs html)
    (extractFootnoteMap html) chapterSlug hR1
  have husedND := convert_used_nodup (stripNoteDefs html)
    (extractFootnoteMap html) chapterSlug
  have hkeysND := extractFootnoteMap_keys_nodup html
  have hout : processFootnotes html chapterSlug
      = (convertFootnoteMarkers (stripNoteDefs html)
          (extractFootnoteMap html) chapterSlug).1
        ++ generateFootnoteAsides
            (convertFootnoteMarkers (stripNoteDefs html)
              (extractFootnoteMap html) chapterSlug).2
            (extractFootnoteMap html) chapterSlug true := rfl
  set fm := extractFootnoteMap html with hfm
  set cv := (convertFootnoteMarkers (stripNoteDefs html) fm chapterSlug).1
    with hcv
  set used := (convertFootnoteMarkers (stripNoteDefs html) fm chapterSlug).2
    with hused
  have hids : asideIds (processFootnotes html chapterSlug)
      = ((used.filter (fun id => ((lookupStr fm id).getD "") ≠ ""))
          ++ (fm.filter (fun e => !used.contains e.1)).map Prod.fst).map
        (fun id => chapterSlug ++ "_" ++ id) := by
    rw [hout, genAsides_characterization, if_pos rfl]
    rw [asideIds, List.filterMap_append, List.filterMap_append]
    rw [List.filterMap_eq_nil_iff.mpr hnoAside]
    have h2 := asideIds_map_aside
      (fun id => chapterSlug ++ "_" ++ id) (fun _ => "Ghi chú")
      (fun id => (lookupStr fm id).getD "")
      (used.filter (fun id => ((lookupStr fm id).getD "") ≠ ""))
    have h3 := asideIds_map_aside
      (fun e : String × String => chapterSlug ++ "_" ++ e.1)
      (fun _ => "Ghi chú (Thêm)") (fun e => e.2)
      (fm.filter (fun e => !used.contains e.1))
    rw [asideIds] at h2 h3
    rw [h2, h3, List.map_append, List.map_map]
    simp [Function.comp]
  have hfragsGen : List.filterMap HNode.noterefFrag?
      (generateFootnoteAsides used fm chapterSlug true) = [] := by
    rw [genAsides_characterization, if_pos rfl, List.filterMap_append]
    have h2 := noterefFrags_map_aside
      (fun id => chapterSlug ++ "_" ++ id) (fun _ => "Ghi chú")
      (fun id => (lookupStr fm id).getD "")
      (used.filter (fun id => ((lookupStr fm id).getD "") ≠ ""))
    have h3 := noterefFrags_map_aside
      (fun e : String × String => chapterSlug ++ "_" ++ e.1)
      (fun _ => "Ghi chú (Thêm)") (fun e => e.2)
      (fm.filter (fun e => !used.contains e.1))
    rw [noterefFrags] at h2 h3
    rw [h2, h3]
    rfl
  refine ⟨?_, ?_, ?_⟩
  · intro i hi
    rw [hids] at hi
    obtain ⟨id, _, hid⟩ := List.mem_map.1 hi
    rw [← hid]
    exact isPrefixList_str_append (chapterSlug ++ "_") id
  · intro f hf
    rw [hout, noterefFrags, List.filterMap_append, hfragsGen,
      List.append_nil] at hf
    obtain ⟨id, hid⟩ := hfragPre f hf
    rw [hid]
    exact isPrefixList_str_append (chapterSlug ++ "_") id
  · rw [hids]
    have hinj : Function.Injective
        (fun id : String => chapterSlug ++ "_" ++ id) :=
      fun a b hab => append_left_cancel_str hab
    refine List.Nodup.map hinj ?_
    rw [List.nodup_append]
    refine ⟨husedND.filter _, ?_, ?_⟩
    · have hsub : List.Sublist
          ((fm.filter (fun e => !used.contains e.1)).map Prod.fst)
          (fm.map Prod.fst) :=
        (List.filter_sublist fm).map Prod.fst
      exact List.Nodup.sublist hsub hkeysND
    · intro x hx hx2
      have hxu : x ∈ used := List.mem_of_mem_filter hx
      obtain ⟨e, he, hex⟩ := List.mem_map.1 hx2
      have hq := (List.mem_filter.1 he).2
      have hcont : used.contains e.1 = false := by simpa using hq
      exact contains_false_not_mem hcont (hex ▸ hxu)

/-- C1 witness: the invariant applied to the concrete fragment `c1Input`
with slug `ch1`: the emitted aside id `ch1_note1` is `ch1_`-prefixed and
the emitted aside ids are duplicate-free. -/
theorem processFootnotes_scoping_unique_witness :
    isPrefixList ("ch1" ++ "_").data ("ch1_note1" : String).data = true ∧
    (asideIds (processFootnotes c1Input "ch1")).Nodup :=
  ⟨(processFootnotes_scoping_unique c1Input "ch1" (by decide) (by decide)).1
      "ch1_note1" (by decide),
    (processFootnotes_scoping_unique c1Input "ch1"
      (by decide) (by decide)).2.2⟩

/-! ### Cache validation (claim C2) -/

/-- C2: `validateCachedChapter` returns true exactly when the cached
content is at least 50 characters long (in particular non-empty) and every
`<img src>` in the parsed content whose src starts with `images/` resolves
to an existing regular file of size > 0 under the base directory; in every
other case — empty or short content, or a failing image check — it
returns false. -/
theorem validateCachedChapter_spec (fs : String → Option FileStat)
    (baseFolder : String) (cc : ChapterContent) :
    validateCachedChapter fs baseFolder cc = true ↔
      (50 ≤ cc.content.length ∧
        ∀ s : String, some s ∈ imgSrcList cc.content → s ≠ "" →
          isPrefixList "images/".data s.data = true →
          fileExistsSync fs (joinPath baseFolder s) = true) := by
  rw [validateCachedChapter]
  by_cases h0 : cc.content = ""
  · rw [if_pos h0]
    simp only [Bool.false_eq_true, false_iff]
    intro hc
    rw [h0] at hc
    exact absurd hc.1 (by decide)
  · rw [if_neg h0]
    by_cases h1 : cc.content.length < 50
    · rw [if_pos h1]
      simp only [Bool.false_eq_true, false_iff]
      intro hc
      omega
    · rw [if_neg h1]
      rw [List.all_eq_true]
      constructor
      · intro hall
        refine ⟨by omega, ?_⟩
        intro s hs hne hpre
        have hok := hall _ hs
        simp only [cachedImgOk] at hok
        rw [if_neg hne, if_pos hpre] at hok
        exact hok
      · rintro ⟨-, himg⟩ src? hmem
        cases src? with
        | none => rfl
        | some s =>
          simp only [cachedImgOk]
          by_cases hse : s = ""
          · rw [if_pos hse]
          · rw [if_neg hse]
            by_cases hp : isPrefixList "images/".data s.data = true
            · rw [if_pos hp]
              exact himg s hmem hse hp
            · rw [if_neg hp]

/-! ### Rate-limit branch of the retry loop (claim C3) -/

/-- C3: inside the retry loop of `fetchWithRetry`, when a dispatch yields
a 429 response and the rate-limit budget (5) is not exhausted, the fabric
sleeps `min(30·k, 120)` seconds — `k` the 1-based count of 429 responses
seen in this call — and continues the loop without consuming a retry
attempt (the source decrements `attempt` and the `for`-update restores it:
`attempt` is unchanged in the continuation state); once the budget is
exhausted, the RateLimited error is recorded and the loop is exited with
that error. -/
theorem fetchWithRetry_429_branch (rotEligible : Bool) (body : Option String)
    (rot : Option (Nat × Option String)) (rest : List StepOutcome)
    (st : RetryState) (hatt : st.attempt < NETWORK_MAX_RETRIES) :
    (st.rateLimitRetries < maxRateLimitRetries →
      fetchLoop rotEligible (⟨.resp 429 body, rot⟩ :: rest) st
        = fetchLoop rotEligible rest
            { st with
              requestCount := st.requestCount + 1,
              rateLimitRetries := st.rateLimitRetries + 1,
              sleptSeconds := st.sleptSeconds
                ++ [min (30 * (st.rateLimitRetries + 1)) 120] }) ∧
    (maxRateLimitRetries ≤ st.rateLimitRetries →
      fetchLoop rotEligible (⟨.resp 429 body, rot⟩ :: rest) st
        = (.failure .rateLimited,
            { st with
              requestCount := st.requestCount + 1,
              rateLimitRetries := st.rateLimitRetries + 1,
              lastError := some .rateLimited }, rest)) := by
  constructor
  · intro hbudget
    conv_lhs => rw [fetchLoop.eq_def]
    dsimp only
    rw [if_pos hatt]
    rw [if_neg (by decide)]
    rw [if_pos rfl]
    rw [if_pos (by simp only [maxRateLimitRetries] at hbudget ⊢; omega)]
  · intro hspent
    conv_lhs => rw [fetchLoop.eq_def]
    dsimp only
    rw [if_pos hatt]
    rw [if_neg (by decide)]
    rw [if_pos rfl]
    rw [if_neg (by simp only [maxRateLimitRetries] at hspent ⊢; omega)]

/-- C3 witness: the theorem applied to concrete loop states, once with
budget remaining and once with the budget exhausted. -/
theorem fetchWithRetry_429_branch_witness :
    fetchLoop false [⟨.resp 429 none, none⟩] ⟨0, 0, none, [], 0⟩
      = fetchLoop false [] ⟨0, 1, none, [min 30 120], 1⟩ ∧
    fetchLoop false [⟨.resp 429 none, none⟩] ⟨0, 5, none, [], 0⟩
      = (.failure .rateLimited, ⟨0, 6, some .rateLimited, [], 1⟩, []) :=
  ⟨(fetchWithRetry_429_branch false none none [] ⟨0, 0, none, [], 0⟩
      (by decide)).1 (by decide),
    (fetchWithRetry_429_branch false none none [] ⟨0, 5, none, [], 0⟩
      (by decide)).2 (by decide)⟩

/-! ### Existence skip of `downloadToFile` (claim C8) -/

/-- C8: when the target path already exists as a file with size > 0,
`downloadToFile` returns true and leaves the world — file system, the
fabric's `requestCount`, and the pending network oracle — untouched: no
network call is issued. -/
theorem downloadToFile_skips_existing (w : World) (url savePath : String)
    (h : fileExistsWithContent w.fs savePath = true) :
    downloadToFile w url savePath = (true, w) := by
  rw [downloadToFile, if_pos h]

/-- C8 witness: scenario S4 of the spec — the target is a 12-byte file, so
the call returns true with the world unchanged. -/
theorem downloadToFile_skips_existing_witness :
    fileExistsWithContent c8World.fs "/tmp/exist" = true ∧
    downloadToFile c8World "http://img.docln.net/a.jpg" "/tmp/exist"
      = (true, c8World) :=
  ⟨by decide,
    downloadToFile_skips_existing c8World "http://img.docln.net/a.jpg"
      "/tmp/exist" (by decide)⟩

/-! ### Pool alternative (claim C9) -/

theorem succ_mod_ne_self {n i : Nat} (h : 1 < n) : (i + 1) % n ≠ i := by
  intro heq
  rcases Nat.lt_or_ge i n with hi | hi
  · rcases Nat.lt_or_ge (i + 1) n with h1 | h1
    · rw [Nat.mod_eq_of_lt h1] at heq; omega
    · have hn : i + 1 = n := by omega
      rw [hn, Nat.mod_self] at heq; omega
  · have := Nat.mod_lt (i + 1) (show 0 < n by omega)
    omega

/-- C9, counterexample: with a pool holding the same descriptor twice,
`getAlternativeProxy 0` returns a descriptor equal to `getProxyAt 0`,
refuting "the descriptor returned by Alternative(i) never equals the
descriptor returned by GetAt(i) when n > 1". -/
theorem getAlternativeProxy_duplicate_counterexample :
    1 < c9DupPool.proxies.length ∧
    getAlternativeProxy c9DupPool 0 = getProxyAt c9DupPool 0 ∧
    (getAlternativeProxy c9DupPool 0).isSome = true := by
  decide

/-- C9 (amended): `getAlternativeProxy` returns the descriptor at position
`(i + 1) % n` when `n > 1` and nothing when `n = 1`; and when `n > 1`, for a
pool of pairwise-distinct descriptors, the alternative for a valid index
`i` differs from `getProxyAt i` (with duplicate descriptors in the pool the
two positions can hold equal values). -/
theorem getAlternativeProxy_amended_spec (pool : ProxyPoolRec) (i : Nat) :
    (pool.proxies.length = 1 → getAlternativeProxy pool i = none) ∧
    (1 < pool.proxies.length →
      getAlternativeProxy pool i
        = pool.proxies[(i + 1) % pool.proxies.length]?) ∧
    (1 < pool.proxies.length → pool.proxies.Nodup →
      i < pool.proxies.length →
      getAlternativeProxy pool i ≠ getProxyAt pool i) := by
  refine ⟨?_, ?_, ?_⟩
  · intro h1
    rw [getAlternativeProxy, if_pos (by omega)]
  · intro h1
    rw [getAlternativeProxy, if_neg (by omega)]
    simp only
    rw [if_neg (succ_mod_ne_self h1)]
  · intro h1 hnd hi hbad
    have hmod : (i + 1) % pool.proxies.length < pool.proxies.length :=
      Nat.mod_lt _ (by omega)
    rw [getAlternativeProxy, if_neg (by omega)] at hbad
    simp only at hbad
    rw [if_neg (succ_mod_ne_self h1)] at hbad
    rw [getProxyAt, List.getElem?_eq_getElem hmod, List.getElem?_eq_getElem hi]
      at hbad
    have heq := Option.some_inj.1 hbad
    have := (@List.Nodup.getElem_inj_iff _ _ hnd _ hmod _ hi).1 heq
    exact succ_mod_ne_self h1 this

/-- C9 witness: the amended theorem applied to concrete pools. -/
theorem getAlternativeProxy_amended_spec_witness :
    getAlternativeProxy c9SinglePool 0 = none ∧
    getAlternativeProxy c9DistinctPool 0
      = c9DistinctPool.proxies[(0 + 1) % c9DistinctPool.proxies.length]? ∧
    getAlternativeProxy c9DistinctPool 0 ≠ getProxyAt c9DistinctPool 0 :=
  ⟨(getAlternativeProxy_amended_spec c9SinglePool 0).1 (by decide),
    (getAlternativeProxy_amended_spec c9DistinctPool 0).2.1 (by decide),
    (getAlternativeProxy_amended_spec c9DistinctPool 0).2.2 (by decide)
      (by decide) (by decide)⟩

/-- C4, counterexample: the validator accepts an explicit port 0 (it only
checks `!port || isNaN(Number(port))`), while the claimed specification
demands a positive port. -/
theorem isValidProxyUrl_port_zero_counterexample :
    isValidProxyUrl "http://h:0" = true ∧
    specValidProxyUrl "http://h:0" = false := by
  constructor
  · decide
  · decide

/-- C4 (amended): `isValidProxyUrl` returns true iff the string parses as
a URL with a supported scheme, a non-empty host, and an effective port
(explicit, or the protocol default 80/443/1080) below 65536 — the spec's
positivity requirement does not hold (port 0 is accepted). -/
theorem isValidProxyUrl_amended_spec (s : String) :
    isValidProxyUrl s = specValidProxyUrlAmended s := by
  rw [isValidProxyUrl, specValidProxyUrlAmended]
  cases hp : parseURL s with
  | none => rfl
  | some u =>
    have hport := (parseURL_inv hp).2.2
    obtain ⟨sc, un, pw, ho, po, pa⟩ := u
    dsimp only
    cases hsup : SUPPORTED_PROTOCOLS.contains sc with
    | false => simp
    | true =>
      simp only [Bool.not_true, Bool.false_eq_true, if_false, Bool.true_and]
      by_cases hh : ho = ""
      · simp [hh]
      · rw [if_neg hh]
        have hhost : (ho != "") = true := bne_iff_ne.2 hh
        rw [hhost, Bool.true_and]
        cases hu : po with
        | some p =>
          have hple : p ≤ 65535 := hport p hu
          dsimp only
          rw [if_neg (natToString_ne_empty p)]
          have hdig : (natToString p).data.all isDigitChar = true := by
            rw [natToString]
            exact List.all_eq_true.2 (natDigits_all_digit p)
          rw [hdig]
          simp only [Bool.not_true, Bool.false_eq_true, if_false]
          simp only [specEffectivePort]
          rw [eq_comm, decide_eq_true_eq]
          omega
        | none =>
          have hmem : sc ∈ SUPPORTED_PROTOCOLS := by
            rw [show SUPPORTED_PROTOCOLS.contains sc
                = SUPPORTED_PROTOCOLS.elem sc from rfl,
              List.elem_eq_mem] at hsup
            exact of_decide_eq_true hsup
          simp only [SUPPORTED_PROTOCOLS, List.mem_cons,
            List.not_mem_nil, or_false] at hmem
          rcases hmem with rfl | rfl | rfl <;> rfl

theorem colon_data : (":" : String).data = [':'] := rfl

theorem at_data : ("@" : String).data = ['@'] := rfl

theorem empty_str_data : ("" : String).data = [] := rfl

theorem data_mk (l : List Char) : (String.mk l).data = l := rfl

/-- `parseProxyUrl` on a string that parses to a proxy-shaped record:
supported scheme, non-empty host, in-range port (explicit or elided to
the scheme default), and URL-decoded credentials when non-empty. -/
theorem parseProxyUrl_ok {s proto U P host : String} {port : Nat}
    {portO : Option Nat}
    (hp : parseURL s = some ⟨proto, U, P, host, portO, ""⟩)
    (hproto : proto ∈ SUPPORTED_PROTOCOLS)
    (hh : host ≠ "")
    (hport1 : 1 ≤ port) (hport2 : port ≤ 65535)
    (hportO : portO = if defaultSchemePort proto = some port then none
      else some port) :
    parseProxyUrl s
      = .ok ⟨proto, host, port,
          if U ≠ "" then some (decodeURIComponent U) else none,
          if P ≠ "" then some (decodeURIComponent P) else none⟩ := by
  have hsup : SUPPORTED_PROTOCOLS.contains proto = true := by
    rw [show SUPPORTED_PROTOCOLS.contains proto
        = SUPPORTED_PROTOCOLS.elem proto from rfl, List.elem_eq_mem]
    exact decide_eq_true hproto
  subst hportO
  rw [parseProxyUrl, hp]
  dsimp only
  rw [hsup]
  simp only [Bool.not_true, Bool.false_eq_true, if_false]
  rw [if_neg hh]
  by_cases hdef : defaultSchemePort proto = some port
  · rw [if_pos hdef]
    dsimp only
    have hmem3 : proto = "http" ∨ proto = "https" ∨ proto = "socks5" := by
      simpa [SUPPORTED_PROTOCOLS] using hproto
    rcases hmem3 with rfl | rfl | rfl
    · have h80 : 80 = port := Option.some_inj.1 hdef
      subst h80
      rfl
    · have h443 : 443 = port := Option.some_inj.1 hdef
      subst h443
      rfl
    · exact absurd hdef (by simp [defaultSchemePort])
  · rw [if_neg hdef]
    dsimp only
    rw [show digitsVal (natToString port).data = port from
      digitsVal_natDigits port]
    rw [if_neg (by omega : ¬(port = 0 ∨ port > 65535))]

/-- C5: credential round-trip.  For a descriptor with a supported
protocol, a well-formed non-empty host, a port in [1, 65535], and
optional non-empty ASCII credentials (a password only alongside a
username), parsing the reconstructed URL
`proto://[enc(user)[:enc(pass)]@]host:port` returns the descriptor
unchanged, URL-decoding the credentials. -/
theorem parseProxyUrl_buildProxyUrl (p : ProxyConfig)
    (hproto : p.protocol ∈ SUPPORTED_PROTOCOLS)
    (hhne : p.host ≠ "")
    (hhostc : ∀ c ∈ p.host.data, isHostChar c = true)
    (hport1 : 1 ≤ p.port) (hport2 : p.port ≤ 65535)
    (huser : ∀ u, p.username = some u →
      u ≠ "" ∧ ∀ c ∈ u.data, c.toNat < 128)
    (hpass : ∀ q, p.password = some q →
      q ≠ "" ∧ ∀ c ∈ q.data, c.toNat < 128)
    (hps : p.password.isSome = true → p.username.isSome = true) :
    parseProxyUrl (buildProxyUrl p) = .ok p := by
  obtain ⟨proto, host, port, userO, passO⟩ := p
  have hproto3 : proto = "http" ∨ proto = "https" ∨ proto = "socks5" := by
    simpa [SUPPORTED_PROTOCOLS] using hproto
  have hvs : validSchemeChars proto.data = true := by
    rcases hproto3 with rfl | rfl | rfl <;> decide
  have hlow : proto.data.map toLowerChar = proto.data := by
    rcases hproto3 with rfl | rfl | rfl <;> decide
  have hdne : host.data ≠ [] := fun h => hhne (@strData_inj host "" h)
  have hne : host.data = [] → specialSchemes.contains proto = false :=
    fun h => (hdne h).elim
  cases userO with
  | none =>
    have hpnone : passO = none := by
      cases passO with
      | none => rfl
      | some q => exact absurd (hps rfl) Bool.false_ne_true
    subst hpnone
    have hbuild : buildProxyUrl ⟨proto, host, port, none, none⟩
        = proto ++ "://"
            ++ String.mk (host.data ++ ':' :: natDigits port) := by
      apply strData_inj
      simp [buildProxyUrl, String.data_append, colon_data, data_mk,
        natToString, empty_str_data, List.append_assoc]
    have hp : parseURL (buildProxyUrl ⟨proto, host, port, none, none⟩)
        = some ⟨proto, "", "", host,
            if defaultSchemePort proto = some port then none else some port,
            ""⟩ := by
      rw [hbuild, parseURL_shape _ hvs hlow]
      exact parseAuthority_shape_nocreds hhostc hne hport2
    rw [parseProxyUrl_ok hp hproto hhne hport1 hport2 rfl]
    rfl
  | some uStr =>
    have hu := huser uStr rfl
    cases passO with
    | none =>
      have hbuild : buildProxyUrl ⟨proto, host, port, some uStr, none⟩
          = proto ++ "://"
              ++ String.mk ((encodeURIComponent uStr).data
                  ++ '@' :: (host.data ++ ':' :: natDigits port)) := by
        apply strData_inj
        simp [buildProxyUrl, hu.1, String.data_append, colon_data, at_data,
          data_mk, natToString, empty_str_data, List.append_assoc]
      have hp : parseURL (buildProxyUrl ⟨proto, host, port, some uStr, none⟩)
          = some ⟨proto, String.mk (encodeURIComponent uStr).data, "", host,
              if defaultSchemePort proto = some port then none else some port,
              ""⟩ := by
        rw [hbuild, parseURL_shape _ hvs hlow]
        exact parseAuthority_shape_creds (encodeURIComponent uStr).data none
          (encode_all_userinfo uStr) (fun pc hpc => nomatch hpc)
          hhostc hne hport2
      rw [parseProxyUrl_ok hp hproto hhne hport1 hport2 rfl]
      rw [mk_data]
      rw [if_pos (encode_ne_empty hu.1), decode_encode hu.2,
        if_neg (fun h => h rfl)]
    | some pStr =>
      have hq := hpass pStr rfl
      have hbuild : buildProxyUrl ⟨proto, host, port, some uStr, some pStr⟩
          = proto ++ "://"
              ++ String.mk
                (((encodeURIComponent uStr).data
                    ++ ':' :: (encodeURIComponent pStr).data)
                  ++ '@' :: (host.data ++ ':' :: natDigits port)) := by
        apply strData_inj
        simp [buildProxyUrl, hu.1, hq.1, String.data_append, colon_data,
          at_data, data_mk, natToString, List.append_assoc]
      have hp : parseURL
            (buildProxyUrl ⟨proto, host, port, some uStr, some pStr⟩)
          = some ⟨proto, String.mk (encodeURIComponent uStr).data,
              String.mk (encodeURIComponent pStr).data, host,
              if defaultSchemePort proto = some port then none else some port,
              ""⟩ := by
        rw [hbuild, parseURL_shape _ hvs hlow]
        exact parseAuthority_shape_creds (encodeURIComponent uStr).data
          (some (encodeURIComponent pStr).data)
          (encode_all_userinfo uStr)
          (fun pc hpc => by
            cases Option.some_inj.1 hpc
            exact encode_all_userinfo pStr)
          hhostc hne hport2
      rw [parseProxyUrl_ok hp hproto hhne hport1 hport2 rfl]
      rw [mk_data, mk_data]
      rw [if_pos (encode_ne_empty hu.1), decode_encode hu.2,
        if_pos (encode_ne_empty hq.1), decode_encode hq.2]

/-- C5 witness: the round-trip applied to a concrete descriptor whose
credentials need percent-encoding. -/
theorem parseProxyUrl_buildProxyUrl_witness :
    parseProxyUrl (buildProxyUrl
        ⟨"http", "proxy.example.com", 8080,
          some "user name", some "p@ss:word"⟩)
      = .ok ⟨"http", "proxy.example.com", 8080,
          some "user name", some "p@ss:word"⟩ :=
  parseProxyUrl_buildProxyUrl
    ⟨"http", "proxy.example.com", 8080, some "user name", some "p@ss:word"⟩
    (by decide) (by decide) (by decide) (by decide) (by decide)
    (fun u hu => by rw [← Option.some_inj.1 hu]; decide)
    (fun q hq => by rw [← Option.some_inj.1 hq]; decide)
    (fun _ => rfl)

theorem slashes_data : ("://" : String).data = [':', '/', '/'] := rfl

theorem serializePort_some_data (p : Nat) :
    (serializePort (some p)).data = ':' :: natDigits p := by
  rw [serializePort, String.data_append, colon_data, natToString]
  rfl

theorem serializePath_empty_mem {sc : String} {c : Char}
    (h : c ∈ (serializePath sc "").data) : c = '/' := by
  rw [serializePath] at h
  split at h
  · simpa using h
  · exact absurd h (List.not_mem_nil c)

theorem hasCredPattern_mem_at {s : String} (h : HasCredPattern s) :
    '@' ∈ s.data := by
  obtain ⟨pre, a, b, post, hsd, _, _, _, _⟩ := h
  rw [hsd]
  simp

/-- C6, counterexample: `sanitizeForDisplay` on
`http://user:pass@h:80` returns `http://h/` — the default port 80 is
elided by the URL serializer, so the output no longer contains the
input's port digits `80`. -/
theorem sanitizeForDisplay_port_counterexample :
    sanitizeForDisplay "http://user:pass@h:80" = "http://h/" ∧
    ¬∃ l r : List Char,
      (sanitizeForDisplay "http://user:pass@h:80").data
        = l ++ ['8', '0'] ++ r := by
  constructor
  · decide
  · rintro ⟨l, r, h⟩
    have h8 : '8' ∈ (sanitizeForDisplay "http://user:pass@h:80").data := by
      rw [h]
      simp
    rw [show sanitizeForDisplay "http://user:pass@h:80" = "http://h/" from
      by decide] at h8
    exact absurd h8 (by decide)

/-- C6 (amended): for every parseable URL carrying credentials and no
path, the sanitized output contains no substring matching
`//[^/]+:[^/]+@`, and still contains the host; it contains the port
digits whenever the parsed record retains an explicit port (a port equal
to the scheme default is elided by the serializer, so the unconditional
port clause of the original claim fails). -/
theorem sanitizeForDisplay_amended_spec (s : String) (u : URLRec)
    (hp : parseURL s = some u) (hcred : u.username ≠ "")
    (hpath : u.path = "") :
    ¬HasCredPattern (sanitizeForDisplay s) ∧
    (∃ l r, (sanitizeForDisplay s).data = l ++ u.host.data ++ r) ∧
    (∀ pn, u.port = some pn →
      ∃ l r, (sanitizeForDisplay s).data = l ++ natDigits pn ++ r) := by
  have hinv := parseURL_inv hp
  have hdata : (sanitizeForDisplay s).data
      = u.scheme.data ++ [':', '/', '/'] ++ u.host.data
          ++ (serializePort u.port).data
          ++ (serializePath u.scheme "").data := by
    rw [sanitizeForDisplay, hp]
    dsimp only
    rw [serializeURL]
    dsimp only
    rw [if_neg (by simp), hpath]
    simp [String.data_append, slashes_data, empty_str_data,
      List.append_assoc]
  refine ⟨?_, ?_, ?_⟩
  · intro hcp
    have hat := hasCredPattern_mem_at hcp
    rw [hdata] at hat
    simp only [List.mem_append] at hat
    rcases hat with ((((h1 | h2) | h3) | h4) | h5)
    · exact (schemeChar_facts (hinv.1 '@' h1)).1 rfl
    · exact absurd h2 (by decide)
    · exact (hostChar_facts (hinv.2.1 '@' h3)).2.1 rfl
    · cases hpo : u.port with
      | none =>
        rw [hpo] at h4
        exact absurd h4 (by decide)
      | some pn =>
        rw [hpo, serializePort_some_data] at h4
        rcases List.mem_cons.1 h4 with hc | hc
        · exact absurd hc (by decide)
        · exact (digitChar_facts (natDigits_all_digit pn '@' hc)).2.1 rfl
    · exact absurd (serializePath_empty_mem h5) (by decide)
  · exact ⟨u.scheme.data ++ [':', '/', '/'],
      (serializePort u.port).data ++ (serializePath u.scheme "").data,
      by rw [hdata]; simp [List.append_assoc]⟩
  · intro pn hpn
    refine ⟨u.scheme.data ++ [':', '/', '/'] ++ u.host.data ++ [':'],
      (serializePath u.scheme "").data, ?_⟩
    rw [hdata, hpn, serializePort_some_data]
    simp [List.append_assoc]

/-- C6 witness: the amended theorem at `http://user:pass@h:8080`, whose
non-default port survives sanitization. -/
theorem sanitizeForDisplay_amended_spec_witness :
    ¬HasCredPattern (sanitizeForDisplay "http://user:pass@h:8080") ∧
    (∃ l r, (sanitizeForDisplay "http://user:pass@h:8080").data
        = l ++ ("h" : String).data ++ r) ∧
    (∀ pn, (some 8080 : Option Nat) = some pn →
      ∃ l r, (sanitizeForDisplay "http://user:pass@h:8080").data
        = l ++ natDigits pn ++ r) :=
  sanitizeForDisplay_amended_spec "http://user:pass@h:8080"
    ⟨"http", "user", "pass", "h", some 8080, ""⟩ (by decide) (by decide) rfl

end HakoCrawler
